import Mathlib

/-!
Velvet `roadMap.c`: annotations, roadmaps and the roadmap importers

A shallow embedding of `src/roadMap.c`.  Machine integers are mathematical
integers reduced to the signed range of their C type at every store; text is
a list of characters; the memory-safety conditions of the C code (writes
through the roadmap, annotation and conversion-table cursors) are explicit
faults of the embedded importer.
-/

namespace Velvet

/-! ## Machine integers -/

/-- Reduction of an integer to the signed two's-complement range of `bits` bits. -/
def wrapSigned (bits : Nat) (x : Int) : Int :=
  (x + 2 ^ (bits - 1)) % 2 ^ bits - 2 ^ (bits - 1)

/-- Saturation of an integer to the signed range of `bits` bits (what the C
library's integer conversions store when a numeral is out of range). -/
def clampSigned (bits : Nat) (x : Int) : Int :=
  if x < -(2 ^ (bits - 1)) then -(2 ^ (bits - 1))
  else if 2 ^ (bits - 1) - 1 < x then 2 ^ (bits - 1) - 1
  else x

/-- Modelled from the spec: `globals.h` is absent; `IDnum` is the 32-bit signed
identifier type (the field comments of `annotation_st` give 32 bits). -/
def toIDnum (x : Int) : Int := wrapSigned 32 x

/-- Modelled from the spec: `globals.h` is absent; `ShortLength` is the 32-bit
signed type of the fields of `annotation_st` (their comments give 32 bits). -/
def toShortLength (x : Int) : Int := wrapSigned 32 x

/-- Modelled from the spec: `globals.h` is absent; `Coordinate` is the 64-bit
signed coordinate type that receives the `long long` values read from a line. -/
def toCoordinate (x : Int) : Int := wrapSigned 64 x

/-- Modelled from the spec: `globals.h` is absent; `boolean` is a small signed
integer (8 bits) "treated as boolean": zero is false. -/
def toBoolean (x : Int) : Int := wrapSigned 8 x

/-- Range of `IDnum`. -/
def InIDnum (x : Int) : Prop := -(2 : Int) ^ 31 ≤ x ∧ x < (2 : Int) ^ 31

/-- Range of `ShortLength`. -/
def InShortLength (x : Int) : Prop := -(2 : Int) ^ 31 ≤ x ∧ x < (2 : Int) ^ 31

instance (x : Int) : Decidable (InIDnum x) := by unfold InIDnum; infer_instance
instance (x : Int) : Decidable (InShortLength x) := by unfold InShortLength; infer_instance

/-! ## Reading a line: `fgets` -/

/-- The characters `fgets` stores when at most `room` characters fit: it stops
after a newline, at end of file, or when the room is used up. -/
def fgetsAux : Nat → List Char → List Char × List Char
  | 0, s => ([], s)
  | _ + 1, [] => ([], [])
  | room + 1, c :: cs =>
    if c = '\n' then ([c], cs)
    else ((c :: (fgetsAux room cs).1), (fgetsAux room cs).2)

/-- `fgets(line, n, file)`: `none` at end of file (the C call returns `NULL`),
otherwise the line read (at most `n - 1` characters) and the rest of the file. -/
def fgets (n : Nat) (file : List Char) : Option (List Char × List Char) :=
  match file with
  | [] => none
  | _ :: _ => some (fgetsAux (n - 1) file)

/-- The lines returned by successive calls `fgets(line, n, file)` until it
returns `NULL`; `fuel` bounds the number of calls. -/
def readLinesAux (n : Nat) : Nat → List Char → List (List Char)
  | 0, _ => []
  | fuel + 1, file =>
    match fgets n file with
    | none => []
    | some (line, rest) => line :: readLinesAux n fuel rest

/-- All lines of a file as `while (fgets(line, n, file) != NULL)` sees them.
Every call with `n ≥ 2` consumes a character, so `file.length` calls suffice. -/
def readLines (n : Nat) (file : List Char) : List (List Char) :=
  readLinesAux n file.length file

/-! ## Scanning numbers: the conversions of `sscanf` -/

/-- The C `isspace` test (C locale). -/
def isSpace (c : Char) : Bool :=
  c = ' ' || c = '\t' || c = '\n' || c = '\x0b' || c = '\x0c' || c = '\r'

/-- White space skipped before a conversion or by a white-space directive. -/
def skipSpace : List Char → List Char
  | [] => []
  | c :: cs => if isSpace c then skipSpace cs else c :: cs

/-- Value of a character as a digit in the given base, if it is one. -/
def digitValue (base : Nat) (c : Char) : Option Nat :=
  let v :=
    if '0' ≤ c ∧ c ≤ '9' then c.toNat - 48
    else if 'a' ≤ c ∧ c ≤ 'f' then c.toNat - 87
    else if 'A' ≤ c ∧ c ≤ 'F' then c.toNat - 55
    else base
  if v < base then some v else none

/-- Reads the longest run of digits, accumulating its value. -/
def readDigits (base : Nat) : Nat → List Char → Nat × List Char
  | acc, [] => (acc, [])
  | acc, c :: cs =>
    match digitValue base c with
    | some d => readDigits base (acc * base + d) cs
    | none => (acc, c :: cs)

/-- The digits of a numeral, after its sign: at least one digit is required. -/
def scanMagnitude (base : Nat) (s : List Char) : Option (Nat × List Char) :=
  match s with
  | [] => none
  | c :: _ => if (digitValue base c).isSome then some (readDigits base 0 s) else none

/-- The numeral after the sign.  With `auto` (the `%i` conversion) the base is
taken from the text: `0x`/`0X` hexadecimal, a leading `0` octal, else decimal;
without it (the `%d` family) the numeral is decimal.  The text `0x` not followed
by a hexadecimal digit is a matching failure, as the C standard has it; a C
library may store 0 there instead. -/
def scanUnsigned (auto : Bool) (s : List Char) : Option (Nat × List Char) :=
  if auto then
    match s with
    | c :: d :: r =>
      if c = '0' ∧ (d = 'x' ∨ d = 'X') then scanMagnitude 16 r
      else if c = '0' then scanMagnitude 8 s
      else scanMagnitude 10 s
    | _ => if s.head? = some '0' then scanMagnitude 8 s else scanMagnitude 10 s
  else scanMagnitude 10 s

/-- An integer conversion of `sscanf`: skips white space, reads an optional
sign and a numeral; `none` is a matching failure.  The value is the
mathematical one; the caller stores it in the target type. -/
def scanInteger (auto : Bool) (s : List Char) : Option (Int × List Char) :=
  match skipSpace s with
  | [] => none
  | c :: r =>
    if c = '-' then (scanUnsigned auto r).map (fun p => (-(p.1 : Int), p.2))
    else if c = '+' then (scanUnsigned auto r).map (fun p => ((p.1 : Int), p.2))
    else (scanUnsigned auto (c :: r)).map (fun p => ((p.1 : Int), p.2))

/-- The characters left after a run of non-white-space characters. -/
def skipWord : List Char → List Char
  | [] => []
  | c :: cs => if isSpace c then c :: cs else skipWord cs

/-- The `%*s` conversion: skips white space, then a non-empty word that is
not stored; `none` at the end of the input. -/
def scanSkipWord (s : List Char) : Option (List Char) :=
  match skipSpace s with
  | [] => none
  | c :: r => some (skipWord (c :: r))

/-- What a `long` or `long long` (64 bits) receives from a scanned numeral. -/
def toLong (x : Int) : Int := clampSigned 64 x

/-- What an `int` (32 bits) receives from a numeral scanned by `%i`. -/
def toInt (x : Int) : Int := wrapSigned 32 (clampSigned 64 x)

/-- What a `short` (16 bits) receives from a numeral scanned by `%hi`. -/
def toShort (x : Int) : Int := wrapSigned 16 (clampSigned 64 x)

/-- The variables `sscanf` writes in the importers, together with the fields of
the freshly `malloc`ed result that the importer may leave untouched.  An
argument of this type gives their indeterminate initial contents. -/
structure Locals where
  long_var : Int
  long_var2 : Int
  longlong_var : Int
  longlong_var2 : Int
  longlong_var3 : Int
  short_var : Int
  WORDLENGTH : Int
  indexOrder : Option (List Int)
deriving DecidableEq, Repr

/-- The call `sscanf(line, "%ld\t%ld\t%i\t%hi\n", &long_var, &long_var2,
&(result->WORDLENGTH), &short_var)`: conversions are stored one by one and the
first that fails ends the scan, leaving the remaining variables as they were. -/
def scanHeader (line : List Char) (v : Locals) : Locals :=
  match scanInteger false line with
  | none => v
  | some (a, r1) =>
    let v1 := { v with long_var := toLong a }
    match scanInteger false (skipSpace r1) with
    | none => v1
    | some (b, r2) =>
      let v2 := { v1 with long_var2 := toLong b }
      match scanInteger true (skipSpace r2) with
      | none => v2
      | some (c, r3) =>
        let v3 := { v2 with WORDLENGTH := toInt c }
        match scanInteger true (skipSpace r3) with
        | none => v3
        | some (d, _) => { v3 with short_var := toShort d }

/-- The call `sscanf(line, "%*s %ld\n", &long_var)` of a marker line. -/
def scanMarker (line : List Char) (v : Locals) : Locals :=
  match scanSkipWord line with
  | none => v
  | some r =>
    match scanInteger false (skipSpace r) with
    | none => v
    | some (a, _) => { v with long_var := toLong a }

/-- The call `sscanf(line, "%ld\t%lld\t%lld\t%lld\n", &long_var, &longlong_var,
&longlong_var2, &longlong_var3)` of a data line. -/
def scanData (line : List Char) (v : Locals) : Locals :=
  match scanInteger false line with
  | none => v
  | some (a, r1) =>
    let v1 := { v with long_var := toLong a }
    match scanInteger false (skipSpace r1) with
    | none => v1
    | some (b, r2) =>
      let v2 := { v1 with longlong_var := toLong b }
      match scanInteger false (skipSpace r2) with
      | none => v2
      | some (c, r3) =>
        let v3 := { v2 with longlong_var2 := toLong c }
        match scanInteger false (skipSpace r3) with
        | none => v3
        | some (d, _) => { v3 with longlong_var3 := toLong d }

/-! ## Data model -/

/-- The union `positionPtr`: a `ShortLength coord` and an `IDnum nodeID` in the
same 32-bit slot, so both members read the one stored value. -/
structure PositionPtr where
  slot : Int
deriving DecidableEq, Repr

/-- Member `coord` of the union. -/
def PositionPtr.coord (p : PositionPtr) : Int := p.slot

/-- Member `nodeID` of the union. -/
def PositionPtr.nodeID (p : PositionPtr) : Int := p.slot

/-- The record `struct annotation_st`. -/
structure Annotation where
  position : Int
  start : PositionPtr
  finish : PositionPtr
  length : Int
  sequenceID : Int
deriving DecidableEq, Repr

/-- The record `struct roadmap_st`. -/
structure RoadMap where
  annotationCount : Int
deriving DecidableEq, Repr

/-- The record `IndexConversion`. -/
structure IndexConversion where
  initialIndex : Int
  actualIndex : Int
deriving DecidableEq, Repr

/-- Modelled from the spec: `roadMap.h` is absent; the record `RoadMapArray`
owns the roadmap array, the annotation array, the word length, the reference
count, the double-strand flag and the optional index-order array. -/
structure RoadMapArray where
  length : Int
  referenceCount : Int
  WORDLENGTH : Int
  double_strand : Int
  array : List RoadMap
  annotations : List Annotation
  indexOrder : Option (List Int)
deriving DecidableEq, Repr

/-- A zeroed annotation, as `callocOrExit` leaves it. -/
def Annotation.zero : Annotation := ⟨0, ⟨0⟩, ⟨0⟩, 0, 0⟩

/-! ## Accessors and mutators -/

def getAnnotationCount (rdmap : RoadMap) : Int := toIDnum rdmap.annotationCount

def getFinish (annot : Annotation) : Int := toCoordinate annot.finish.coord

def getStart (annot : Annotation) : Int := toCoordinate annot.start.coord

def getPosition (annot : Annotation) : Int := toCoordinate annot.position

/-- The function `getAnnotationLength`; the argument `none` is the `NULL` pointer. -/
def getAnnotationLength (annot : Option Annotation) : Int :=
  match annot with
  | none => 0
  | some a => toCoordinate a.length

/-- The function `getAnnotSequenceID`; `rdmaps = none` is the `NULL` pointer.
The result is `none` when `indexOrder[annot->sequenceID]` is read outside the
index-order array. -/
def getAnnotSequenceID (annot : Annotation) (rdmaps : Option RoadMapArray) : Option Int :=
  match rdmaps with
  | none => some annot.sequenceID
  | some r =>
    match r.indexOrder with
    | none => some annot.sequenceID
    | some order =>
      if 0 ≤ annot.sequenceID then order.get? annot.sequenceID.toNat else none

def setStartID (annot : Annotation) (nodeID : Int) : Annotation :=
  { annot with start := ⟨toIDnum nodeID⟩ }

def setFinishID (annot : Annotation) (nodeID : Int) : Annotation :=
  { annot with finish := ⟨toIDnum nodeID⟩ }

def getStartID (annot : Annotation) : Int := annot.start.nodeID

def getFinishID (annot : Annotation) : Int := annot.finish.nodeID

def incrementAnnotationCoordinates (annot : Annotation) : Annotation :=
  { annot with
    start := ⟨toShortLength (annot.start.coord + 1)⟩
    finish := ⟨toShortLength (annot.finish.coord + 1)⟩ }

/-- The function `getNextAnnotation`: an annotation pointer is its index in the
flat annotation array. -/
def getNextAnnotation (annot : Nat) : Nat := annot + 1

/-- The function `getRoadMapInArray`; `none` outside the array. -/
def getRoadMapInArray (array : RoadMapArray) (index : Int) : Option RoadMap :=
  if 0 ≤ index then array.array.get? index.toNat else none

/-! ## Index conversion table -/

/-- The comparator `compareIndexConversions`: the difference is an `IDnum`. -/
def compareIndexConversions (A B : IndexConversion) : Int :=
  let diff := toIDnum (A.actualIndex - B.actualIndex)
  if diff > 0 then 1
  else if diff = 0 then 0
  else -1

/-- The library call `qsort(base, n, size, compar)`: the array sorted by
insertion with the given comparator (an element goes before the first one it
does not compare greater than).  With a comparator that is a total order on
distinct keys every sorting algorithm gives this result; on an inconsistent
comparator, or on equal keys, the order a C library gives may differ. -/
def qsort {α : Type} (compar : α → α → Int) (base : List α) : List α :=
  base.insertionSort (fun a b => compar a b ≤ 0)

/-! ## The bulk importer `importRoadMapArray` -/

/-- The ways the embedded importer stops without a result: the two fatal exits
of the C code, and the writes outside an allocated array. -/
inductive Fault where
  /-- The exit `exitErrorf(EXIT_FAILURE, true, "%s incomplete.", filename)`. -/
  | incomplete
  /-- Abort of `callocOrExit`, called with a negative count. -/
  | allocation
  /-- The update `rdmap->annotationCount++` with the cursor outside `result->array`. -/
  | roadmapOutOfBounds (index : Int)
  /-- A write through `nextAnnotation` outside `result->annotations`. -/
  | annotationOutOfBounds (index : Nat)
  /-- A write through `currentIndexConversionEntry` outside the table. -/
  | tableOutOfBounds (index : Nat)
  /-- A write through `nextAnnotation` after `reallocOrExit` has moved the array
  it points into. -/
  | staleWrite (index : Nat)
  /-- A loop that does not end: `fgets` with a buffer too small to read a character. -/
  | endless
deriving DecidableEq, Repr

/-- Decidable equality of results, for evaluating the importers on examples. -/
instance instDecidableEqExcept {ε α : Type} [DecidableEq ε] [DecidableEq α] :
    DecidableEq (Except ε α)
  | .ok a, .ok b =>
    if h : a = b then isTrue (congrArg Except.ok h)
    else isFalse (fun h2 => h (Except.ok.inj h2))
  | .error a, .error b =>
    if h : a = b then isTrue (congrArg Except.error h)
    else isFalse (fun h2 => h (Except.error.inj h2))
  | .ok _, .error _ => isFalse (fun h => Except.noConfusion h)
  | .error _, .ok _ => isFalse (fun h => Except.noConfusion h)

/-- The test `line[0] == 'R'` of a marker line. -/
def isMarker (line : List Char) : Bool := line.head? = some 'R'

/-- The first pass, `while (fgets(...)) if (line[0] != 'R') annotationCount++`,
on the lines after the header; the counter is an `IDnum`. -/
def countAnnotations (lines : List (List Char)) : Int :=
  lines.foldl (fun annotationCount line =>
    if isMarker line then annotationCount else toIDnum (annotationCount + 1)) 0

/-- The variables of the second pass. -/
structure FillState where
  /-- The variables written by `sscanf`. -/
  vars : Locals
  /-- The cursor `rdmap`, as an index into `result->array`. -/
  rdmap : Int
  /-- The array `result->array`. -/
  array : List RoadMap
  /-- The cursor `nextAnnotation`, as an index into `result->annotations`. -/
  nextAnnotation : Nat
  /-- The array `result->annotations`. -/
  annotations : List Annotation
  /-- The array `indexConversionTable` (unused without `OPENMP`). -/
  indexConversionTable : List IndexConversion
  /-- The cursor `currentIndexConversionEntry`, as an index into the table. -/
  currentIndexConversionEntry : Nat
  /-- The variable `counter`. -/
  counter : Int
deriving DecidableEq, Repr

/-- The annotation the `else` branch of the second pass writes from the scanned
variables: the parsed values are narrowed to the fields, and the length is the
difference of the parsed `Coordinate` values narrowed to `ShortLength`. -/
def annotationOfVars (v : Locals) : Annotation :=
  let seqID := toIDnum v.long_var
  let position := toCoordinate v.longlong_var
  let start := toCoordinate v.longlong_var2
  let finish := toCoordinate v.longlong_var3
  { sequenceID := seqID
    position := toShortLength position
    start := ⟨toShortLength start⟩
    finish := ⟨toShortLength finish⟩
    length :=
      if seqID > 0 then toShortLength (toCoordinate (finish - start))
      else toShortLength (toCoordinate (start - finish)) }

/-- One iteration of the loop of the second pass, on the line just read. -/
def fillLine (openmp : Bool) (st : FillState) (line : List Char) : Except Fault FillState :=
  if isMarker line then
    if openmp then
      let vars := scanMarker line st.vars
      if st.currentIndexConversionEntry < st.indexConversionTable.length then
        .ok { st with
          vars := vars
          indexConversionTable :=
            st.indexConversionTable.set st.currentIndexConversionEntry
              ⟨st.counter, toIDnum vars.long_var⟩
          counter := toIDnum (st.counter + 1)
          currentIndexConversionEntry := st.currentIndexConversionEntry + 1
          rdmap := st.rdmap + 1 }
      else .error (.tableOutOfBounds st.currentIndexConversionEntry)
    else .ok { st with rdmap := st.rdmap + 1 }
  else
    let vars := scanData line st.vars
    if st.nextAnnotation < st.annotations.length then
      if 0 ≤ st.rdmap ∧ st.rdmap < st.array.length then
        .ok { st with
          vars := vars
          annotations := st.annotations.set st.nextAnnotation (annotationOfVars vars)
          array := st.array.modify
            (fun r => ⟨toShortLength (r.annotationCount + 1)⟩) st.rdmap.toNat
          nextAnnotation := st.nextAnnotation + 1 }
      else .error (.roadmapOutOfBounds st.rdmap)
    else .error (.annotationOutOfBounds st.nextAnnotation)

/-- The function `importRoadMapArray` on the contents of the file it opens.
`openmp` tells whether the code is compiled with `OPENMP`; `garbage` gives the
indeterminate initial contents of the locals and of the `malloc`ed result. -/
def importRoadMapArray (openmp : Bool) (garbage : Locals) (file : List Char) :
    Except Fault RoadMapArray :=
  match fgets 100 file with
  | none => .error .incomplete
  | some (line, rest) =>
    let vars := scanHeader line garbage
    let sequenceCount := toIDnum vars.long_var
    if sequenceCount < 0 then .error .allocation
    else
      let annotationCount := countAnnotations (readLines 100 rest)
      if annotationCount < 0 then .error .allocation
      else
        let st0 : FillState :=
          { vars := vars
            rdmap := -1
            array := List.replicate sequenceCount.toNat ⟨0⟩
            nextAnnotation := 0
            annotations := List.replicate annotationCount.toNat Annotation.zero
            indexConversionTable := List.replicate sequenceCount.toNat ⟨0, 0⟩
            currentIndexConversionEntry := 0
            counter := 1 }
        match (readLines 100 rest).foldlM (fillLine openmp) st0 with
        | .error e => .error e
        | .ok st =>
          .ok { length := sequenceCount
                referenceCount := toIDnum vars.long_var2
                WORDLENGTH := vars.WORDLENGTH
                double_strand := toBoolean vars.short_var
                array := st.array
                annotations := st.annotations
                indexOrder :=
                  if openmp then
                    some ((qsort compareIndexConversions st.indexConversionTable).map
                      IndexConversion.initialIndex)
                  else garbage.indexOrder }

/-! ## The second pass without its arrays

The second pass is described a second time on lists that only grow: the counts
of the roadmaps reached so far, the records written so far and the table
entries written so far.  `Progress.store` lays such a description out in the
zero-initialised arrays of the C code, and the loop of the importer is shown
below to compute exactly the stored description. -/

/-- What the second pass has produced after some lines. -/
structure Progress where
  /-- The variables written by `sscanf`. -/
  vars : Locals
  /-- The final `annotationCount` of the roadmaps before the current one. -/
  done : List Int
  /-- The `annotationCount` of the current roadmap; `none` before the first marker. -/
  current : Option Int
  /-- The annotations written, in file order. -/
  records : List Annotation
  /-- The entries of the conversion table written, in file order. -/
  entries : List IndexConversion
  /-- The variable `counter`. -/
  counter : Int

/-- The counts of all roadmaps reached so far, the current one last. -/
def Progress.counts (p : Progress) : List Int := p.done ++ p.current.toList

/-- The effect of one line of the second pass on the description. -/
def Progress.step (openmp : Bool) (p : Progress) (line : List Char) : Progress :=
  if isMarker line then
    if openmp then
      { p with
        vars := scanMarker line p.vars
        done := p.counts
        current := some 0
        entries := p.entries ++ [⟨p.counter, toIDnum (scanMarker line p.vars).long_var⟩]
        counter := toIDnum (p.counter + 1) }
    else { p with done := p.counts, current := some 0 }
  else
    { p with
      vars := scanData line p.vars
      current := p.current.map (fun c => toShortLength (c + 1))
      records := p.records ++ [annotationOfVars (scanData line p.vars)] }

/-- The description after a list of lines. -/
def Progress.run (openmp : Bool) (p : Progress) (lines : List (List Char)) : Progress :=
  lines.foldl (Progress.step openmp) p

/-- The state of the second pass holding a description, in arrays of `n`
roadmaps and table entries and `m` annotations, all zeroed beyond what has been
written. -/
def Progress.store (n m : Nat) (p : Progress) : FillState :=
  { vars := p.vars
    rdmap := (p.counts.length : Int) - 1
    array := p.counts.map RoadMap.mk ++ List.replicate (n - p.counts.length) ⟨0⟩
    nextAnnotation := p.records.length
    annotations := p.records ++ List.replicate (m - p.records.length) Annotation.zero
    indexConversionTable := p.entries ++ List.replicate (n - p.entries.length) ⟨0, 0⟩
    currentIndexConversionEntry := p.entries.length
    counter := p.counter }

/-- The description before the first line of the body. -/
def Progress.init (vars : Locals) : Progress :=
  { vars := vars, done := [], current := none, records := [], entries := [], counter := 1 }

/-- Number of marker lines. -/
def markerCount (lines : List (List Char)) : Nat := (lines.filter isMarker).length

/-- Number of data lines (the lines that are not marker lines). -/
def dataCount (lines : List (List Char)) : Nat := (lines.filter (fun l => !isMarker l)).length

/-- The result of the importer in terms of the description of the second pass:
the header line `hdr` gives the metadata, `lines` are the lines of the body. -/
def importResult (openmp : Bool) (garbage : Locals) (hdr : List Char)
    (lines : List (List Char)) : RoadMapArray :=
  let vars := scanHeader hdr garbage
  let p := (Progress.init vars).run openmp lines
  { length := toIDnum vars.long_var
    referenceCount := toIDnum vars.long_var2
    WORDLENGTH := vars.WORDLENGTH
    double_strand := toBoolean vars.short_var
    array := p.counts.map RoadMap.mk ++
      List.replicate ((toIDnum vars.long_var).toNat - p.counts.length) ⟨0⟩
    annotations := p.records
    indexOrder :=
      if openmp then
        some ((qsort compareIndexConversions
          (p.entries ++ List.replicate ((toIDnum vars.long_var).toNat - p.entries.length) ⟨0, 0⟩)).map
            IndexConversion.initialIndex)
      else garbage.indexOrder }

/-! ## Writing roadmap files

The decimal numerals and the lines of a roadmap file as `printf` writes them,
to state the properties of the importers on the text they read. -/

/-- The character of a decimal digit. -/
def digitChar (d : Nat) : Char := Char.ofNat (48 + d)

/-- Decimal digits of `n` put in front of `acc`; `fuel` bounds the number of digits. -/
def showNatAux : Nat → Nat → List Char → List Char
  | 0, _, acc => acc
  | fuel + 1, n, acc =>
    if n < 10 then digitChar n :: acc
    else showNatAux fuel (n / 10) (digitChar (n % 10) :: acc)

/-- The decimal numeral of a natural number. -/
def showNat (n : Nat) : List Char := showNatAux (n + 1) n []

/-- The decimal numeral of an integer, with `-` in front of a negative one. -/
def showInt (x : Int) : List Char :=
  if x < 0 then '-' :: showNat x.natAbs else showNat x.natAbs

/-- A line of four tab-separated decimal integers, the newline included: a
header line or a data line. -/
def numberLine (a b c d : Int) : List Char :=
  showInt a ++ '\t' :: (showInt b ++ '\t' :: (showInt c ++ '\t' :: (showInt d ++ ['\n'])))

/-- A line as `fgets` returns it whole into the buffer of 100 characters: it
ends with its newline, has no other newline and at most 99 characters. -/
def IsLine (l : List Char) : Prop :=
  l.getLast? = some '\n' ∧ '\n' ∉ l.dropLast ∧ l.length ≤ 99

instance (l : List Char) : Decidable (IsLine l) := by unfold IsLine; infer_instance

/-- Value of a run of decimal digits read after the value `acc`. -/
def decimalValue (acc : Nat) (ds : List Char) : Nat :=
  ds.foldl (fun a c => a * 10 + (c.toNat - 48)) acc

/-- Range of the 64-bit types `long`, `long long` and `Coordinate`. -/
def InLong (x : Int) : Prop := -(2 : Int) ^ 63 ≤ x ∧ x < (2 : Int) ^ 63

instance (x : Int) : Decidable (InLong x) := by unfold InLong; infer_instance

/-- A block of a roadmap file: a marker line and the data lines that follow it. -/
structure Block where
  marker : List Char
  data : List (List Char)

/-- The lines of a block, in file order. -/
def Block.lines (b : Block) : List (List Char) := b.marker :: b.data

/-- A block of whole lines: its first line starts with `R`, the others do not. -/
def Block.WellFormed (b : Block) : Prop :=
  IsLine b.marker ∧ isMarker b.marker = true ∧ ∀ d ∈ b.data, IsLine d ∧ isMarker d = false

instance (b : Block) : Decidable b.WellFormed := by unfold Block.WellFormed; infer_instance

/-- The lines of the body of a file made of blocks. -/
def bodyLines (blocks : List Block) : List (List Char) := blocks.flatMap Block.lines

/-- The text of the roadmap file made of a header line and of blocks. -/
def fileText (hdr : List Char) (blocks : List Block) : List Char :=
  hdr ++ (bodyLines blocks).flatten

/-- The marker line `ROADMAP <id>` that carries an original identifier. -/
def markerLine (id : Int) : List Char := "ROADMAP ".toList ++ (showInt id ++ ['\n'])

/-- Two blocks used as a concrete input: the first with two data lines, the
second with none. -/
def exampleBlocks : List Block :=
  [⟨"ROADMAP 1\n".toList, ["1\t0\t5\t9\n".toList, "-1\t3\t9\t5\n".toList]⟩,
   ⟨"ROADMAP 2\n".toList, []⟩]

/-- Initial contents of the locals used in the concrete inputs. -/
def exampleGarbage : Locals := ⟨7, 7, 7, 7, 7, 7, 7, none⟩

/-- A data line given by its four numbers `sequenceID position start finish`. -/
abbrev Row := Int × Int × Int × Int

/-- The text of the data line of a row. -/
def rowLine (t : Row) : List Char := numberLine t.1 t.2.1 t.2.2.1 t.2.2.2

/-- The annotation `importRoadMapArray` writes for a data line, given the four
numbers the line holds. -/
def rowRecord (t : Row) : Annotation :=
  annotationOfVars ⟨toLong t.1, 0, toLong t.2.1, toLong t.2.2.1, toLong t.2.2.2, 0, 0, none⟩

/-- The four numbers of a row fit the 64-bit variables they are scanned into. -/
def Row.InRange (t : Row) : Prop := InLong t.1 ∧ InLong t.2.1 ∧ InLong t.2.2.1 ∧ InLong t.2.2.2

instance (t : Row) : Decidable t.InRange := by unfold Row.InRange; infer_instance

/-- A block whose data lines are given by their numbers. -/
structure DataBlock where
  marker : List Char
  rows : List Row

/-- The block of text of a block of rows. -/
def DataBlock.toBlock (b : DataBlock) : Block := ⟨b.marker, b.rows.map rowLine⟩

/-- A whole marker line and rows in range. -/
def DataBlock.WellFormed (b : DataBlock) : Prop :=
  IsLine b.marker ∧ isMarker b.marker = true ∧ ∀ t ∈ b.rows, t.InRange

instance (b : DataBlock) : Decidable b.WellFormed := by
  unfold DataBlock.WellFormed; infer_instance

/-- The index in the annotation array of the first annotation of roadmap `i`:
the callers reach it by consuming the counts of the roadmaps `0 .. i - 1`. -/
def runStart (r : RoadMapArray) (i : Nat) : Nat :=
  ((r.array.take i).map (fun rdmap => (getAnnotationCount rdmap).toNat)).sum

/-- The annotations of roadmap `i` as the callers read them: from the first
entry of the run, `getAnnotationCount` entries reached by `getNextAnnotation`
(`none` for a read outside the annotation array). -/
def annotationRun (r : RoadMapArray) (i : Nat) : List (Option Annotation) :=
  match getRoadMapInArray r i with
  | none => []
  | some rdmap =>
    (List.range (getAnnotationCount rdmap).toNat).map
      (fun j => r.annotations.get? ( getNextAnnotation^[j] (runStart r i)))

/-- Three blocks of rows used as a concrete input, with two, no and one row. -/
def exampleDataBlocks : List DataBlock :=
  [⟨"ROADMAP 1\n".toList, [(1, 0, 5, 9), (-1, 3, 9, 5)]⟩,
   ⟨"ROADMAP 2\n".toList, []⟩,
   ⟨"ROADMAP 3\n".toList, [(2, 1, 0, 4)]⟩]

/-! ## The records of the streaming importer `importAnnotations` -/

/-- The value of an arithmetic operation on `int` operands (32 bits), which is
how two `ShortLength` fields are subtracted. -/
def intResult (x : Int) : Int := wrapSigned 32 x

/-- The annotation the loop of `importAnnotations` writes from the scanned
variables: the fields are stored first, and the length is the difference of the
stored `start.coord` and `finish.coord` fields. -/
def annotationOfVarsStreaming (v : Locals) : Annotation :=
  let sequenceID := toIDnum v.long_var
  let position := toShortLength (toCoordinate v.longlong_var)
  let start := toShortLength (toCoordinate v.longlong_var2)
  let finish := toShortLength (toCoordinate v.longlong_var3)
  { sequenceID := sequenceID
    position := position
    start := ⟨start⟩
    finish := ⟨finish⟩
    length :=
      if sequenceID > 0 then toShortLength (intResult (finish - start))
      else toShortLength (intResult (start - finish)) }

/-- The difference the sign rule prescribes, on the coordinates read back from
the annotation: `finish - start` when `sequenceID > 0`, else `start - finish`. -/
def signedExtent (a : Annotation) : Int :=
  if a.sequenceID > 0 then getFinish a - getStart a else getStart a - getFinish a

/-- A block whose marker line carries an original identifier. -/
structure IdBlock where
  id : Int
  data : List (List Char)

/-- The block of text of a block with an identifier. -/
def IdBlock.toBlock (b : IdBlock) : Block := ⟨markerLine b.id, b.data⟩

/-- An identifier that fits the `long` it is scanned into, and whole data lines. -/
def IdBlock.WellFormed (b : IdBlock) : Prop :=
  InLong b.id ∧ ∀ d ∈ b.data, IsLine d ∧ isMarker d = false

instance (b : IdBlock) : Decidable b.WellFormed := by
  unfold IdBlock.WellFormed; infer_instance

/-- The entries the second pass writes in the conversion table for marker lines
carrying the given identifiers, when `counter` holds `c` at the first of them. -/
def conversionEntries (c : Int) : List Int → List IndexConversion
  | [] => []
  | id :: ids => ⟨c, toIDnum id⟩ :: conversionEntries (c + 1) ids

/-- Four blocks whose marker lines carry the identifiers 5, 2, 8, 1. -/
def exampleIdBlocks : List IdBlock :=
  [⟨5, ["1\t0\t5\t9\n".toList]⟩, ⟨2, []⟩, ⟨8, ["-1\t3\t9\t5\n".toList, "2\t1\t0\t4\n".toList]⟩,
   ⟨1, []⟩]

/-- The order of the conversion table by original identifier, which the
comparator computes when the difference of the identifiers fits `IDnum`. -/
def byActualIndex (a b : IndexConversion) : Prop := a.actualIndex ≤ b.actualIndex

instance : DecidableRel byActualIndex :=
  fun a b => inferInstanceAs (Decidable (a.actualIndex ≤ b.actualIndex))

instance : IsTotal IndexConversion byActualIndex := ⟨fun a b => le_total a.actualIndex b.actualIndex⟩

instance : IsTrans IndexConversion byActualIndex := ⟨fun _ _ _ h1 h2 => le_trans h1 h2⟩

/-! ## The streaming importer `importAnnotations` -/

/-- The block `reallocOrExit(array, n, Annotation)` returns: the first `n`
entries of the old block, followed by entries of indeterminate content `fill`
when the block grows. -/
def reallocOrExit (array : List Annotation) (n : Nat) (fill : Annotation) : List Annotation :=
  array.take n ++ List.replicate (n - array.length) fill

/-- The variables of the loop of `importAnnotations`. -/
structure StreamState where
  /-- The variables written by `sscanf`. -/
  vars : Locals
  /-- The variable `arraySize`. -/
  arraySize : Int
  /-- The block `annotations` points to. -/
  annotations : List Annotation
  /-- The cursor `nextAnnotation`, as an index into the block it was set in. -/
  nextAnnotation : Nat
  /-- Whether `annotations` has been moved to a new block, which `nextAnnotation`
  does not follow. -/
  moved : Bool
  /-- The caller's counter `*annotationCount`. -/
  annotationCount : Int
deriving DecidableEq, Repr

/-- The loop `while (fgets(line, MAXLINE, file) && line[0] != 'R')` of
`importAnnotations`; `fuel` bounds the number of lines read.  The result is the
final state and the position of the file. -/
def importAnnotationsLoop (MAXLINE : Nat) (moves : Bool) (fill : Annotation) :
    Nat → StreamState → List Char → Except Fault (StreamState × List Char)
  | 0, _, _ => .error .endless
  | fuel + 1, st, file =>
    match fgets MAXLINE file with
    | none => .ok (st, file)
    | some (line, rest) =>
      if isMarker line then .ok (st, rest)
      else
        let vars := scanData line st.vars
        if st.moved then .error (.staleWrite st.nextAnnotation)
        else if st.nextAnnotation < st.annotations.length then
          let annotations := st.annotations.set st.nextAnnotation (annotationOfVarsStreaming vars)
          let annotationCount := toIDnum (st.annotationCount + 1)
          if annotationCount = st.arraySize then
            let arraySize := toIDnum (st.arraySize * 2)
            if arraySize < 0 then .error .allocation
            else
              importAnnotationsLoop MAXLINE moves fill fuel
                { vars := vars
                  arraySize := arraySize
                  annotations := reallocOrExit annotations arraySize.toNat fill
                  nextAnnotation := st.nextAnnotation + 1
                  moved := moves
                  annotationCount := annotationCount } rest
          else
            importAnnotationsLoop MAXLINE moves fill fuel
              { st with
                vars := vars
                annotations := annotations
                nextAnnotation := st.nextAnnotation + 1
                annotationCount := annotationCount } rest
        else .error (.annotationOutOfBounds st.nextAnnotation)

/-- What `importAnnotations` hands back: the returned array, the values left in
`*readIndex` and `*annotationCount`, and the position of the file. -/
structure Imported where
  annotations : List Annotation
  readIndex : Int
  annotationCount : Int
  file : List Char
deriving DecidableEq, Repr

/-- The function `importAnnotations` on the rest of the file from its current
position.  `MAXLINE` is the macro of the absent `globals.h`; `moves` tells
whether `reallocOrExit` returns a new block when it resizes, `fill` is the
content of the entries it adds; `garbage` and `garbageLine` are the
indeterminate initial contents of the locals and of the local buffer `line`,
which is scanned before any line is read into it; `annotationCount` is the
value of the caller's counter. -/
def importAnnotations (MAXLINE : Nat) (moves : Bool) (fill : Annotation) (garbage : Locals)
    (garbageLine : List Char) (file : List Char) (annotationCount : Int) :
    Except Fault Imported :=
  let vars := scanMarker garbageLine garbage
  let readIndex := toIDnum (toIDnum vars.long_var - 1)
  let st0 : StreamState :=
    { vars := vars
      arraySize := 8
      annotations := List.replicate 8 Annotation.zero
      nextAnnotation := 0
      moved := false
      annotationCount := annotationCount }
  match importAnnotationsLoop MAXLINE moves fill (file.length + 1) st0 file with
  | .error e => .error e
  | .ok (st, rest) =>
    if st.annotationCount < 0 then .error .allocation
    else
      .ok { annotations := reallocOrExit st.annotations st.annotationCount.toNat fill
            readIndex := readIndex
            annotationCount := st.annotationCount
            file := rest }

/-- Nine data lines used as a concrete input. -/
def exampleNineLines : List Char :=
  ("1\t0\t5\t9\n1\t1\t5\t9\n1\t2\t5\t9\n1\t3\t5\t9\n1\t4\t5\t9\n" ++
    "1\t5\t5\t9\n1\t6\t5\t9\n1\t7\t5\t9\n1\t8\t5\t9\nROADMAP 2\n").toList

/-! ## Machine-integer lemmas -/

theorem toIDnum_of_in {x : Int} (h : InIDnum x) : toIDnum x = x := by
  unfold InIDnum at h
  unfold toIDnum wrapSigned
  norm_num at h ⊢
  omega

theorem toShortLength_of_in {x : Int} (h : InShortLength x) : toShortLength x = x := by
  unfold InShortLength at h
  unfold toShortLength wrapSigned
  norm_num at h ⊢
  omega

theorem toIDnum_in (x : Int) : InIDnum (toIDnum x) := by
  unfold InIDnum toIDnum wrapSigned
  norm_num
  omega

theorem toShortLength_in (x : Int) : InShortLength (toShortLength x) := by
  unfold InShortLength toShortLength wrapSigned
  norm_num
  omega

/-! ## Node identifiers -/

/-- C10: for every annotation `a`, whatever its start and finish slots held,
and every node identifier `v` (a value of `IDnum`), `getStartID` after
`setStartID a v` returns `v` and `getFinishID` after `setFinishID a v` returns `v`. -/
theorem nodeID_round_trip (a : Annotation) (v : Int) (hv : InIDnum v) :
    getStartID (setStartID a v) = v ∧ getFinishID (setFinishID a v) = v := by
  simp [getStartID, setStartID, getFinishID, setFinishID, PositionPtr.nodeID,
    toIDnum_of_in hv]

/-- C10 at a concrete annotation whose slots hold coordinates. -/
theorem nodeID_round_trip_witness :
    InIDnum (-17) ∧
      getStartID (setStartID ⟨5, ⟨1000⟩, ⟨2000⟩, 1000, 3⟩ (-17)) = -17 ∧
      getFinishID (setFinishID ⟨5, ⟨1000⟩, ⟨2000⟩, 1000, 3⟩ (-17)) = -17 :=
  ⟨by decide, nodeID_round_trip ⟨5, ⟨1000⟩, ⟨2000⟩, 1000, 3⟩ (-17) (by decide)⟩

/-! ## The loop of the second pass computes the stored description -/

theorem modify_length_append {α : Type} (f : α → α) (l₁ : List α) (a : α) (l₂ : List α) :
    (l₁ ++ a :: l₂).modify f l₁.length = l₁ ++ f a :: l₂ := by
  induction l₁ with
  | nil => rfl
  | cons x xs ih => simpa using ih

theorem replicate_sub_of_lt {α : Type} (z : α) {k n : Nat} (h : k < n) :
    List.replicate (n - k) z = z :: List.replicate (n - (k + 1)) z := by
  obtain ⟨d, rfl⟩ : ∃ d, n = k + 1 + d := ⟨n - (k + 1), by omega⟩
  have h1 : k + 1 + d - k = d + 1 := by omega
  have h2 : k + 1 + d - (k + 1) = d := by omega
  rw [h1, h2, List.replicate_succ]

/-- A marker line acts on the stored description as `Progress.step` says, as
long as a roadmap and a table entry are left. -/
theorem fillLine_store_marker (openmp : Bool) (n m : Nat) (p : Progress) (line : List Char)
    (hline : isMarker line = true) (hcounts : p.counts.length < n)
    (hentries : p.entries.length < n) :
    fillLine openmp (p.store n m) line = .ok ((p.step openmp line).store n m) := by
  have h1 := replicate_sub_of_lt (⟨0⟩ : RoadMap) hcounts
  have h2 := replicate_sub_of_lt (⟨0, 0⟩ : IndexConversion) hentries
  simp only [Progress.counts, List.length_append] at h1 hcounts
  cases openmp
  · simp only [fillLine, hline, Progress.step, Progress.store, Progress.counts, if_true,
      Bool.false_eq_true, if_false, Option.toList_some, List.length_append, List.length_singleton,
      List.map_append, List.map_cons, List.map_nil, List.append_assoc]
    rw [h1]
    simp
    constructor <;> omega
  · have hlt : p.entries.length <
        (p.entries ++ List.replicate (n - p.entries.length) (⟨0, 0⟩ : IndexConversion)).length := by
      simp; omega
    simp only [fillLine, hline, Progress.step, Progress.store, Progress.counts, if_true,
      Option.toList_some, List.length_append, List.length_singleton,
      List.map_append, List.map_cons, List.map_nil, List.append_assoc, hlt]
    rw [h1, h2]
    simp
    constructor <;> omega

/-- A data line acts on the stored description as `Progress.step` says, as
long as a roadmap has been reached and an annotation is left. -/
theorem fillLine_store_data (openmp : Bool) (n m : Nat) (p : Progress) (line : List Char)
    (hline : isMarker line = false) (c : Int) (hcur : p.current = some c)
    (hrecords : p.records.length < m) :
    fillLine openmp (p.store n m) line = .ok ((p.step openmp line).store n m) := by
  have h2 := replicate_sub_of_lt Annotation.zero hrecords
  have hlt : p.records.length <
      (p.records ++ List.replicate (m - p.records.length) Annotation.zero).length := by
    simp; omega
  have hrd : ((((p.done ++ [c]).length : Nat) : Int) - 1).toNat = (p.done.map RoadMap.mk).length := by
    simp
  simp only [fillLine, hline, Progress.step, Progress.store, Progress.counts, hcur,
    Bool.false_eq_true, if_false, Option.toList_some, Option.map_some', hlt, if_true, hrd,
    List.map_append, List.map_cons, List.map_nil, List.append_assoc, List.singleton_append,
    modify_length_append]
  rw [h2]
  simp

theorem markerCount_cons (l : List Char) (ls : List (List Char)) :
    markerCount (l :: ls) = (if isMarker l then 1 else 0) + markerCount ls := by
  unfold markerCount
  by_cases h : isMarker l <;> simp [List.filter_cons, h] <;> omega

theorem dataCount_cons (l : List Char) (ls : List (List Char)) :
    dataCount (l :: ls) = (if isMarker l then 0 else 1) + dataCount ls := by
  unfold dataCount
  by_cases h : isMarker l <;> simp [List.filter_cons, h] <;> omega

theorem step_marker_length (openmp : Bool) (p : Progress) (line : List Char)
    (hline : isMarker line = true) :
    (p.step openmp line).counts.length = p.counts.length + 1 ∧
    (p.step openmp line).current = some 0 ∧
    (p.step openmp line).records = p.records ∧
    (p.step openmp line).entries.length ≤ p.entries.length + 1 := by
  cases openmp <;> simp [Progress.step, hline, Progress.counts] <;> omega

theorem step_data_length (openmp : Bool) (p : Progress) (line : List Char)
    (hline : isMarker line = false) :
    (p.step openmp line).counts.length = p.counts.length ∧
    (p.step openmp line).current = p.current.map (fun c => toShortLength (c + 1)) ∧
    (p.step openmp line).records.length = p.records.length + 1 ∧
    (p.step openmp line).entries = p.entries := by
  cases h : p.current <;> simp [Progress.step, hline, Progress.counts, h]

/-- The loop of the second pass, started on a stored description, ends without
fault on the stored description of `Progress.run`, provided the body does not
start with a data line and the arrays are large enough. -/
theorem foldlM_fillLine_store (openmp : Bool) (n m : Nat) (lines : List (List Char)) :
    ∀ (p : Progress),
      (p.current = none → ∀ l, lines.head? = some l → isMarker l = true) →
      p.counts.length + markerCount lines ≤ n →
      p.entries.length ≤ p.counts.length →
      p.records.length + dataCount lines ≤ m →
      lines.foldlM (fillLine openmp) (p.store n m) = .ok ((p.run openmp lines).store n m) := by
  induction lines with
  | nil => intro p _ _ _ _; rfl
  | cons line rest ih =>
    intro p hfirst hmarkers hentries hdata
    rw [markerCount_cons] at hmarkers
    rw [dataCount_cons] at hdata
    by_cases hline : isMarker line = true
    · obtain ⟨h1, h2, h3, h4⟩ := step_marker_length openmp p line hline
      simp only [hline, if_true] at hmarkers hdata
      rw [List.foldlM_cons, fillLine_store_marker openmp n m p line hline (by omega) (by omega)]
      simp only [Progress.run, List.foldl_cons]
      refine ih (p.step openmp line) ?_ ?_ ?_ ?_
      · intro h; rw [h2] at h; cases h
      · omega
      · omega
      · rw [h3]; omega
    · have hline2 : isMarker line = false := by simpa using hline
      obtain ⟨h1, h2, h3, h4⟩ := step_data_length openmp p line hline2
      simp only [hline2, Bool.false_eq_true, if_false] at hmarkers hdata
      obtain ⟨c, hc⟩ : ∃ c, p.current = some c := by
        cases hcur : p.current with
        | none => exact absurd (hfirst hcur line rfl) hline
        | some c => exact ⟨c, rfl⟩
      rw [List.foldlM_cons, fillLine_store_data openmp n m p line hline2 c hc (by omega)]
      simp only [Progress.run, List.foldl_cons]
      refine ih (p.step openmp line) ?_ ?_ ?_ ?_
      · intro h; rw [h2, hc] at h; cases h
      · omega
      · rw [h4]; omega
      · omega

theorem countAnnotations_foldl (lines : List (List Char)) :
    ∀ acc : Int, 0 ≤ acc → acc + dataCount lines < 2 ^ 31 →
      lines.foldl (fun annotationCount line =>
        if isMarker line then annotationCount else toIDnum (annotationCount + 1)) acc
        = acc + dataCount lines := by
  induction lines with
  | nil => intro acc _ _; simp [dataCount]
  | cons l ls ih =>
    intro acc h0 hlt
    rw [dataCount_cons] at hlt ⊢
    by_cases h : isMarker l = true
    · simp only [h, if_true, List.foldl_cons] at hlt ⊢
      rw [ih acc h0 (by simpa using hlt)]
      simp
    · have h2 : isMarker l = false := by simpa using h
      simp only [h2, Bool.false_eq_true, if_false, List.foldl_cons] at hlt ⊢
      have hin : InIDnum (acc + 1) := by
        unfold InIDnum; push_cast at hlt; constructor <;> omega
      rw [toIDnum_of_in hin, ih (acc + 1) (by omega) (by push_cast at hlt ⊢; omega)]
      push_cast; ring

/-- The first pass counts the data lines, when their number fits `IDnum`. -/
theorem countAnnotations_eq (lines : List (List Char)) (h : (dataCount lines : Int) < 2 ^ 31) :
    countAnnotations lines = dataCount lines := by
  unfold countAnnotations
  rw [countAnnotations_foldl lines 0 (le_refl 0) (by simpa using h)]
  simp

theorem run_records_length (openmp : Bool) (lines : List (List Char)) :
    ∀ p : Progress, (p.run openmp lines).records.length = p.records.length + dataCount lines := by
  induction lines with
  | nil => intro p; simp [Progress.run, dataCount]
  | cons l ls ih =>
    intro p
    have := ih (p.step openmp l)
    simp only [Progress.run, List.foldl_cons] at this ⊢
    rw [this, dataCount_cons]
    by_cases h : isMarker l = true
    · rw [(step_marker_length openmp p l h).2.2.1]; simp [h]
    · have h2 : isMarker l = false := by simpa using h
      rw [(step_data_length openmp p l h2).2.2.1]; simp [h2]; omega

/-- The importer returns, and what it returns, on every file whose body does
not start with a data line, has no more marker lines than the header's
sequence count, and has a number of data lines that fits `IDnum`. -/
theorem importRoadMapArray_ok (openmp : Bool) (garbage : Locals) (file hdr rest : List Char)
    (hhdr : fgets 100 file = some (hdr, rest))
    (hfirst : ∀ l, (readLines 100 rest).head? = some l → isMarker l = true)
    (hmarkers : (markerCount (readLines 100 rest) : Int) ≤ toIDnum (scanHeader hdr garbage).long_var)
    (hdata : (dataCount (readLines 100 rest) : Int) < 2 ^ 31) :
    importRoadMapArray openmp garbage file
      = .ok (importResult openmp garbage hdr (readLines 100 rest)) := by
  have hcount := countAnnotations_eq _ hdata
  have hseq : ¬ toIDnum (scanHeader hdr garbage).long_var < 0 := by omega
  have hann : ¬ countAnnotations (readLines 100 rest) < 0 := by rw [hcount]; omega
  have hsim := foldlM_fillLine_store openmp (toIDnum (scanHeader hdr garbage).long_var).toNat
    (dataCount (readLines 100 rest)) (readLines 100 rest)
    (Progress.init (scanHeader hdr garbage)) (fun _ => hfirst)
    (by simp [Progress.init, Progress.counts]; omega) (by simp [Progress.init])
    (by simp [Progress.init])
  have hst : (Progress.init (scanHeader hdr garbage)).store
      (toIDnum (scanHeader hdr garbage).long_var).toNat (dataCount (readLines 100 rest))
      = { vars := scanHeader hdr garbage
          rdmap := -1
          array := List.replicate (toIDnum (scanHeader hdr garbage).long_var).toNat ⟨0⟩
          nextAnnotation := 0
          annotations := List.replicate (dataCount (readLines 100 rest)) Annotation.zero
          indexConversionTable :=
            List.replicate (toIDnum (scanHeader hdr garbage).long_var).toNat ⟨0, 0⟩
          currentIndexConversionEntry := 0
          counter := 1 } := by
    simp [Progress.store, Progress.init, Progress.counts]
  rw [hst] at hsim
  have hlen := run_records_length openmp (readLines 100 rest) (Progress.init (scanHeader hdr garbage))
  simp only [Progress.init, List.length_nil, Nat.zero_add] at hlen
  simp only [importRoadMapArray, hhdr, hseq, hann, if_false, hcount, Int.toNat_ofNat, hsim,
    importResult, Progress.store]
  simp [Progress.init, hlen]

/-! ## Counts and annotations -/

theorem sum_le_of_mem_nonneg {l : List Int} (h : ∀ c ∈ l, 0 ≤ c) : ∀ c ∈ l, c ≤ l.sum := by
  induction l with
  | nil => intro c hc; cases hc
  | cons x xs ih =>
    intro c hc
    have hx : 0 ≤ x := h x (List.mem_cons_self _ _)
    have hxs : ∀ c ∈ xs, 0 ≤ c := fun c hc => h c (List.mem_cons_of_mem _ hc)
    have hsum : 0 ≤ xs.sum := List.sum_nonneg hxs
    rw [List.sum_cons]
    rcases List.mem_cons.mp hc with rfl | hmem
    · omega
    · have := ih hxs c hmem; omega

/-- Along the second pass the counts stay non-negative and add up to the number
of annotations written, as long as that number fits the count field. -/
theorem run_counts_sum (openmp : Bool) (lines : List (List Char)) :
    ∀ p : Progress,
      (p.current = none → ∀ l, lines.head? = some l → isMarker l = true) →
      (∀ c ∈ p.counts, 0 ≤ c) →
      p.counts.sum = p.records.length →
      ((p.records.length + dataCount lines : Nat) : Int) < 2 ^ 31 →
      (∀ c ∈ (p.run openmp lines).counts, 0 ≤ c) ∧
      (p.run openmp lines).counts.sum = (p.run openmp lines).records.length := by
  induction lines with
  | nil => intro p _ h1 h2 _; exact ⟨h1, h2⟩
  | cons l ls ih =>
    intro p hfirst hnn hsum hlt
    rw [dataCount_cons] at hlt
    simp only [Progress.run, List.foldl_cons]
    by_cases h : isMarker l = true
    · obtain ⟨_, h2, h3, _⟩ := step_marker_length openmp p l h
      have hcounts : (p.step openmp l).counts = p.counts ++ [0] := by
        cases openmp <;> simp [Progress.step, h, Progress.counts]
      refine ih (p.step openmp l) ?_ ?_ ?_ ?_
      · intro hn; rw [h2] at hn; cases hn
      · rw [hcounts]; intro c hc
        rcases List.mem_append.mp hc with hc | hc
        · exact hnn c hc
        · simp at hc; omega
      · rw [hcounts, h3]; simpa using hsum
      · rw [h3]; simp only [h, if_true] at hlt; simpa using hlt
    · have hl : isMarker l = false := by simpa using h
      obtain ⟨c, hc⟩ : ∃ c, p.current = some c := by
        cases hcur : p.current with
        | none => exact absurd (hfirst hcur l rfl) h
        | some c => exact ⟨c, rfl⟩
      obtain ⟨_, h2, h3, _⟩ := step_data_length openmp p l hl
      simp only [hl, Bool.false_eq_true, if_false] at hlt
      have hcmem : c ∈ p.counts := by simp [Progress.counts, hc]
      have hc0 : 0 ≤ c := hnn c hcmem
      have hcle : c ≤ p.counts.sum := sum_le_of_mem_nonneg hnn c hcmem
      have hwrap : toShortLength (c + 1) = c + 1 := by
        apply toShortLength_of_in
        unfold InShortLength
        push_cast at hlt
        constructor <;> omega
      have hcounts : (p.step openmp l).counts = p.done ++ [c + 1] := by
        simp [Progress.step, hl, Progress.counts, hc, hwrap]
      have hold : p.counts = p.done ++ [c] := by simp [Progress.counts, hc]
      refine ih (p.step openmp l) ?_ ?_ ?_ ?_
      · intro hn; rw [h2, hc] at hn; cases hn
      · rw [hcounts]; intro d hd
        rcases List.mem_append.mp hd with hd | hd
        · exact hnn d (by rw [hold]; exact List.mem_append_left _ hd)
        · simp at hd; omega
      · rw [hcounts, h3]
        rw [hold] at hsum
        simp only [List.sum_append, List.sum_cons, List.sum_nil] at hsum ⊢
        push_cast; omega
      · rw [h3]; push_cast at hlt ⊢; omega

/-- C1: on every well-formed roadmap file (the body does not start with a data
line and has no more marker lines than the header's sequence count; the number
of data lines fits the counter), `importRoadMapArray` returns a RoadMapArray in
which the `annotationCount`s of `array` add up to the number of entries of
`annotations`, which is the number of non-marker lines counted by the first pass. -/
theorem annotationCount_sum_eq_total (openmp : Bool) (garbage : Locals)
    (file hdr rest : List Char)
    (hhdr : fgets 100 file = some (hdr, rest))
    (hfirst : ∀ l ∈ (readLines 100 rest).head?, isMarker l = true)
    (hmarkers : (markerCount (readLines 100 rest) : Int) ≤ toIDnum (scanHeader hdr garbage).long_var)
    (hdata : (dataCount (readLines 100 rest) : Int) < 2 ^ 31) :
    ∃ r, importRoadMapArray openmp garbage file = .ok r ∧
      (r.array.map RoadMap.annotationCount).sum = r.annotations.length ∧
      (r.annotations.length : Int) = countAnnotations (readLines 100 rest) ∧
      r.annotations.length = dataCount (readLines 100 rest) := by
  refine ⟨_, importRoadMapArray_ok openmp garbage file hdr rest hhdr hfirst hmarkers hdata, ?_, ?_, ?_⟩
  · obtain ⟨_, hsum⟩ := run_counts_sum openmp (readLines 100 rest)
      (Progress.init (scanHeader hdr garbage)) (fun _ => hfirst)
      (by simp [Progress.init, Progress.counts]) (by simp [Progress.init, Progress.counts])
      (by simpa [Progress.init] using hdata)
    simp only [importResult, List.map_append, List.map_map, List.sum_append]
    have hz : (List.map RoadMap.annotationCount (List.replicate
        ((toIDnum (scanHeader hdr garbage).long_var).toNat -
          ((Progress.init (scanHeader hdr garbage)).run openmp (readLines 100 rest)).counts.length)
        (⟨0⟩ : RoadMap))).sum = 0 := by simp
    have hid : (RoadMap.annotationCount ∘ RoadMap.mk) = id := rfl
    rw [hz, hid, List.map_id, hsum]; simp
  · rw [countAnnotations_eq _ hdata]
    simp [importResult, run_records_length, Progress.init]
  · simp [importResult, run_records_length, Progress.init]

/-- C1 on a file of two blocks, the first with two data lines. -/
theorem annotationCount_sum_eq_total_witness :
    fgets 100 "2\t0\t21\t0\nROADMAP 1\n1\t0\t5\t9\n-1\t3\t9\t5\nROADMAP 2\n".toList
        = some ("2\t0\t21\t0\n".toList,
            "ROADMAP 1\n1\t0\t5\t9\n-1\t3\t9\t5\nROADMAP 2\n".toList) ∧
      (∀ l ∈ (readLines 100
          "ROADMAP 1\n1\t0\t5\t9\n-1\t3\t9\t5\nROADMAP 2\n".toList).head?, isMarker l = true) ∧
      ∃ r, importRoadMapArray false ⟨0, 0, 0, 0, 0, 0, 0, none⟩
          "2\t0\t21\t0\nROADMAP 1\n1\t0\t5\t9\n-1\t3\t9\t5\nROADMAP 2\n".toList = .ok r ∧
        (r.array.map RoadMap.annotationCount).sum = r.annotations.length ∧
        (r.annotations.length : Int) = countAnnotations (readLines 100
          "ROADMAP 1\n1\t0\t5\t9\n-1\t3\t9\t5\nROADMAP 2\n".toList) ∧
        r.annotations.length = dataCount (readLines 100
          "ROADMAP 1\n1\t0\t5\t9\n-1\t3\t9\t5\nROADMAP 2\n".toList) :=
  ⟨by decide, by decide,
    annotationCount_sum_eq_total false ⟨0, 0, 0, 0, 0, 0, 0, none⟩ _ "2\t0\t21\t0\n".toList
      "ROADMAP 1\n1\t0\t5\t9\n-1\t3\t9\t5\nROADMAP 2\n".toList
      (by decide) (by decide) (by decide) (by decide)⟩

/-! ## Decimal numerals are scanned back -/

theorem digitChar_facts (d : Nat) (h : d < 10) :
    digitValue 10 (digitChar d) = some d ∧ isSpace (digitChar d) = false ∧
      digitChar d ≠ '-' ∧ digitChar d ≠ '+' ∧ digitChar d ≠ '\n' ∧ digitChar d ≠ 'R' ∧
      (digitChar d = '0' ↔ d = 0) := by
  interval_cases d <;> decide

theorem isSpace_facts (c : Char) (h : isSpace c = true) :
    digitValue 10 c = none ∧ digitValue 8 c = none ∧ c ≠ 'x' ∧ c ≠ 'X' := by
  simp only [isSpace, Bool.or_eq_true, decide_eq_true_eq] at h
  rcases h with ((((h | h) | h) | h) | h) | h <;> subst h <;> decide

theorem showNatAux_append (fuel : Nat) : ∀ (n : Nat) (acc : List Char),
    showNatAux fuel n acc = showNatAux fuel n [] ++ acc := by
  induction fuel with
  | zero => intro n acc; rfl
  | succ f ih =>
    intro n acc
    unfold showNatAux
    by_cases h : n < 10
    · simp [h]
    · simp only [h, if_false]
      rw [ih (n / 10) (digitChar (n % 10) :: acc), ih (n / 10) [digitChar (n % 10)]]
      simp

theorem showNatAux_fuel (fuel₁ : Nat) : ∀ (fuel₂ n : Nat) (acc : List Char),
    n < fuel₁ → n < fuel₂ → showNatAux fuel₁ n acc = showNatAux fuel₂ n acc := by
  induction fuel₁ with
  | zero => intro _ n _ h; omega
  | succ f ih =>
    intro fuel₂ n acc h1 h2
    obtain ⟨g, rfl⟩ : ∃ g, fuel₂ = g + 1 := ⟨fuel₂ - 1, by omega⟩
    unfold showNatAux
    by_cases h : n < 10
    · simp [h]
    · simp only [h, if_false]
      exact ih g (n / 10) _ (by omega) (by omega)

/-- The recursion equation of the decimal numeral. -/
theorem showNat_eq (n : Nat) :
    showNat n = if n < 10 then [digitChar n] else showNat (n / 10) ++ [digitChar (n % 10)] := by
  by_cases h : n < 10
  · simp [showNat, showNatAux, h]
  · simp only [h, if_false]
    unfold showNat
    conv_lhs => unfold showNatAux
    simp only [h, if_false]
    rw [showNatAux_append, showNatAux_fuel n (n / 10 + 1) (n / 10) [] (by omega) (by omega)]

theorem showNat_digits (n : Nat) : ∀ c ∈ showNat n, ∃ d, d < 10 ∧ c = digitChar d := by
  induction n using Nat.strong_induction_on with
  | _ n ih =>
    rw [showNat_eq]
    by_cases h : n < 10
    · simp only [h, if_true, List.mem_singleton]
      intro c hc; exact ⟨n, h, hc⟩
    · simp only [h, if_false, List.mem_append, List.mem_singleton]
      intro c hc
      rcases hc with hc | hc
      · exact ih (n / 10) (by omega) c hc
      · exact ⟨n % 10, by omega, hc⟩

theorem showNat_head (n : Nat) :
    ∃ d t, showNat n = digitChar d :: t ∧ d < 10 ∧ (n ≠ 0 → d ≠ 0) := by
  induction n using Nat.strong_induction_on with
  | _ n ih =>
    rw [showNat_eq]
    by_cases h : n < 10
    · exact ⟨n, [], by simp [h], h, fun h0 => h0⟩
    · obtain ⟨d, t, ht, hd, h0⟩ := ih (n / 10) (by omega)
      refine ⟨d, t ++ [digitChar (n % 10)], by simp [h, ht], hd, fun _ => h0 (by omega)⟩

theorem showNat_length (k : Nat) : ∀ n, n < 10 ^ (k + 1) → (showNat n).length ≤ k + 1 := by
  induction k with
  | zero =>
    intro n hn
    rw [showNat_eq]
    have : n < 10 := by simpa using hn
    simp [this]
  | succ k ih =>
    intro n hn
    rw [showNat_eq]
    by_cases h : n < 10
    · simp [h]
    · have : n / 10 < 10 ^ (k + 1) := by
        rw [Nat.div_lt_iff_lt_mul (by norm_num)]
        rw [pow_succ] at hn; exact hn
      have := ih (n / 10) this
      simp [h]; omega

theorem digitChar_toNat (d : Nat) (h : d < 10) : (digitChar d).toNat - 48 = d := by
  interval_cases d <;> decide

theorem decimalValue_showNat (n : Nat) : decimalValue 0 (showNat n) = n := by
  induction n using Nat.strong_induction_on with
  | _ n ih =>
    rw [showNat_eq]
    by_cases h : n < 10
    · simp [h, decimalValue, digitChar_toNat n h]
    · have := ih (n / 10) (by omega)
      simp only [decimalValue] at this
      simp only [h, if_false, decimalValue, List.foldl_append, List.foldl_cons, List.foldl_nil, this,
        digitChar_toNat (n % 10) (by omega)]
      omega

theorem readDigits_digits (ds : List Char) (hds : ∀ c ∈ ds, ∃ d, d < 10 ∧ c = digitChar d)
    (rest : List Char) : ∀ acc,
    readDigits 10 acc (ds ++ rest) = readDigits 10 (decimalValue acc ds) rest := by
  induction ds with
  | nil => intro acc; rfl
  | cons c cs ih =>
    intro acc
    obtain ⟨d, hd, rfl⟩ := hds c (List.mem_cons_self _ _)
    simp only [List.cons_append, readDigits, (digitChar_facts d hd).1, decimalValue,
      List.foldl_cons, digitChar_toNat d hd]
    exact ih (fun c hc => hds c (List.mem_cons_of_mem _ hc)) _

theorem readDigits_stop (base acc : Nat) (c : Char) (r : List Char)
    (h : digitValue base c = none) : readDigits base acc (c :: r) = (acc, c :: r) := by
  simp [readDigits, h]

/-- A decimal numeral followed by white space is scanned back by the decimal
conversions. -/
theorem scanMagnitude_showNat (n : Nat) (c : Char) (r : List Char) (hc : isSpace c = true) :
    scanMagnitude 10 (showNat n ++ c :: r) = some (n, c :: r) := by
  obtain ⟨d, t, ht, hd, _⟩ := showNat_head n
  have h1 : scanMagnitude 10 (showNat n ++ c :: r)
      = some (readDigits 10 0 (showNat n ++ c :: r)) := by
    rw [ht]; simp [scanMagnitude, (digitChar_facts d hd).1]
  rw [h1, readDigits_digits _ (showNat_digits n), decimalValue_showNat,
    readDigits_stop _ _ _ _ (isSpace_facts c hc).1]

/-- A decimal numeral followed by white space is scanned back by the
conversions `%ld`, `%lld` (`auto = false`) and `%i`, `%hi` (`auto = true`). -/
theorem scanUnsigned_showNat (auto : Bool) (n : Nat) (c : Char) (r : List Char)
    (hc : isSpace c = true) :
    scanUnsigned auto (showNat n ++ c :: r) = some (n, c :: r) := by
  cases auto
  · simp [scanUnsigned, scanMagnitude_showNat n c r hc]
  · obtain ⟨d, t, ht, hd, h0⟩ := showNat_head n
    obtain ⟨hs10, hs8, hx, hX⟩ := isSpace_facts c hc
    by_cases hn : n = 0
    · subst hn
      have h0s : showNat 0 = ['0'] := by decide
      have h8 : digitValue 8 '0' = some 0 := by decide
      rw [h0s]
      simp [scanUnsigned, hx, hX, scanMagnitude, readDigits, hs8, h8]
    · have hne : digitChar d ≠ '0' := fun h => h0 hn (((digitChar_facts d hd).2.2.2.2.2.2).mp h)
      have key := scanMagnitude_showNat n c r hc
      rw [ht] at key ⊢
      cases t with
      | nil => simpa [scanUnsigned, hne] using key
      | cons e t => simpa [scanUnsigned, hne] using key

theorem skipSpace_not_space (c : Char) (r : List Char) (h : isSpace c = false) :
    skipSpace (c :: r) = c :: r := by
  simp [skipSpace, h]

/-- The numeral of an integer followed by white space is scanned back. -/
theorem scanInteger_showInt (auto : Bool) (x : Int) (c : Char) (r : List Char)
    (hc : isSpace c = true) :
    scanInteger auto (showInt x ++ c :: r) = some (x, c :: r) := by
  obtain ⟨d, t, ht, hd, _⟩ := showNat_head x.natAbs
  obtain ⟨_, hsp, hm, hp, _⟩ := digitChar_facts d hd
  have key := scanUnsigned_showNat auto x.natAbs c r hc
  by_cases hx : x < 0
  · have hval : -((x.natAbs : Nat) : Int) = x := by omega
    simp only [showInt, hx, if_true, List.cons_append, scanInteger]
    rw [skipSpace_not_space _ _ (by decide)]
    simp only [↓reduceIte, key, Option.map_some', hval]
  · have hval : ((x.natAbs : Nat) : Int) = x := by omega
    simp only [showInt, hx, if_false, scanInteger]
    rw [ht] at key ⊢
    rw [List.cons_append] at key ⊢
    rw [skipSpace_not_space _ _ hsp]
    simp only [hm, hp, if_false, key, Option.map_some', hval]

/-! ## Lines of numbers -/

theorem showInt_head (x : Int) :
    ∃ c t, showInt x = c :: t ∧ isSpace c = false ∧ c ≠ 'R' ∧ c ≠ '\n' := by
  obtain ⟨d, t, ht, hd, _⟩ := showNat_head x.natAbs
  obtain ⟨_, hsp, _, _, hn, hR, _⟩ := digitChar_facts d hd
  by_cases hx : x < 0
  · exact ⟨'-', showNat x.natAbs, by simp [showInt, hx], by decide, by decide, by decide⟩
  · exact ⟨digitChar d, t, by simp [showInt, hx, ht], hsp, hR, hn⟩

theorem skipSpace_showInt (c : Char) (x : Int) (r : List Char) (hc : isSpace c = true) :
    skipSpace (c :: (showInt x ++ r)) = showInt x ++ r := by
  obtain ⟨e, t, ht, hsp, _⟩ := showInt_head x
  rw [ht]
  simp [skipSpace, hc, hsp]

/-- A data line of four decimal integers assigns the four variables. -/
theorem scanData_numberLine (a b c d : Int) (v : Locals) :
    scanData (numberLine a b c d) v =
      { v with long_var := toLong a, longlong_var := toLong b,
               longlong_var2 := toLong c, longlong_var3 := toLong d } := by
  have ht : isSpace '\t' = true := by decide
  have hn : isSpace '\n' = true := by decide
  simp only [scanData, numberLine, scanInteger_showInt false _ _ _ ht,
    scanInteger_showInt false _ _ _ hn, skipSpace_showInt _ _ _ ht]

/-- A header line of four decimal integers assigns the four header variables. -/
theorem scanHeader_numberLine (a b c d : Int) (v : Locals) :
    scanHeader (numberLine a b c d) v =
      { v with long_var := toLong a, long_var2 := toLong b,
               WORDLENGTH := toInt c, short_var := toShort d } := by
  have ht : isSpace '\t' = true := by decide
  have hn : isSpace '\n' = true := by decide
  simp only [scanHeader, numberLine, scanInteger_showInt false _ _ _ ht,
    scanInteger_showInt true _ _ _ ht,
    scanInteger_showInt true _ _ _ hn, skipSpace_showInt _ _ _ ht]

theorem isMarker_numberLine (a b c d : Int) : isMarker (numberLine a b c d) = false := by
  obtain ⟨e, t, ht, _, hR, _⟩ := showInt_head a
  simp [isMarker, numberLine, ht, hR]

theorem showInt_length (x : Int) (h : InLong x) : (showInt x).length ≤ 20 := by
  unfold InLong at h
  have hn : x.natAbs < 10 ^ (18 + 1) := by norm_num at h ⊢; omega
  have := showNat_length 18 x.natAbs hn
  unfold showInt
  split <;> simp <;> omega

theorem showInt_no_newline (x : Int) : '\n' ∉ showInt x := by
  have key : '\n' ∉ showNat x.natAbs := by
    intro hmem
    obtain ⟨d, hd, hc⟩ := showNat_digits x.natAbs _ hmem
    exact (digitChar_facts d hd).2.2.2.2.1 hc.symm
  unfold showInt
  split
  · simp only [List.mem_cons, not_or]; exact ⟨by decide, key⟩
  · exact key

/-- A line of four numbers of 64 bits is read whole by `fgets`. -/
theorem isLine_numberLine (a b c d : Int) (ha : InLong a) (hb : InLong b) (hc : InLong c)
    (hd : InLong d) : IsLine (numberLine a b c d) := by
  have e : numberLine a b c d =
      (showInt a ++ '\t' :: (showInt b ++ '\t' :: (showInt c ++ '\t' :: showInt d))) ++ ['\n'] := by
    simp [numberLine]
  have la := showInt_length a ha
  have lb := showInt_length b hb
  have lc := showInt_length c hc
  have ld := showInt_length d hd
  refine ⟨?_, ?_, ?_⟩
  · rw [e]; exact List.getLast?_concat _
  · rw [e, List.dropLast_concat]
    simp only [List.mem_append, List.mem_cons, not_or]
    exact ⟨showInt_no_newline a, by decide, showInt_no_newline b, by decide,
      showInt_no_newline c, by decide, showInt_no_newline d⟩
  · simp [numberLine]; omega

/-! ## Files made of lines -/

theorem fgetsAux_line (t rest : List Char) (ht : '\n' ∉ t) :
    ∀ room, t.length < room → fgetsAux room (t ++ '\n' :: rest) = (t ++ ['\n'], rest) := by
  induction t with
  | nil =>
    intro room h
    obtain ⟨k, rfl⟩ : ∃ k, room = k + 1 := ⟨room - 1, by simp at h; omega⟩
    simp [fgetsAux]
  | cons c cs ih =>
    intro room h
    obtain ⟨k, rfl⟩ : ∃ k, room = k + 1 := ⟨room - 1, by simp at h; omega⟩
    have hc : c ≠ '\n' := fun e => ht (by simp [e])
    have hcs : '\n' ∉ cs := fun e => ht (List.mem_cons_of_mem _ e)
    have := ih hcs k (by simp at h; omega)
    simp [fgetsAux, hc, this]

theorem isLine_split (l : List Char) (h : IsLine l) :
    ∃ t, l = t ++ ['\n'] ∧ '\n' ∉ t ∧ t.length ≤ 98 := by
  obtain ⟨h1, h2, h3⟩ := h
  have e : l = l.dropLast ++ ['\n'] := (List.dropLast_append_getLast? _ h1).symm
  refine ⟨l.dropLast, e, h2, ?_⟩
  have : l.length = l.dropLast.length + 1 := by
    conv_lhs => rw [e]
    simp
  omega

/-- A whole line is what `fgets` returns from a file that starts with it. -/
theorem fgets_line (l rest : List Char) (h : IsLine l) :
    fgets 100 (l ++ rest) = some (l, rest) := by
  obtain ⟨t, rfl, ht, hlen⟩ := isLine_split l h
  have := fgetsAux_line t rest ht 99 (by omega)
  cases t with
  | nil => simpa [fgets] using this
  | cons c cs => simpa [fgets] using this

theorem readLinesAux_lines (lines : List (List Char)) (hl : ∀ l ∈ lines, IsLine l) :
    ∀ fuel, lines.length < fuel + 1 → readLinesAux 100 fuel lines.flatten = lines := by
  induction lines with
  | nil =>
    intro fuel _
    cases fuel <;> simp [readLinesAux, fgets]
  | cons l ls ih =>
    intro fuel h
    obtain ⟨k, rfl⟩ : ∃ k, fuel = k + 1 := ⟨fuel - 1, by simp at h; omega⟩
    have h1 := fgets_line l ls.flatten (hl l (List.mem_cons_self _ _))
    have h2 := ih (fun l hl' => hl l (List.mem_cons_of_mem _ hl')) k (by simp at h; omega)
    simp [readLinesAux, h1, h2]

theorem length_le_flatten (lines : List (List Char)) (hl : ∀ l ∈ lines, IsLine l) :
    lines.length ≤ lines.flatten.length := by
  induction lines with
  | nil => simp
  | cons l ls ih =>
    obtain ⟨t, rfl, _, _⟩ := isLine_split l (hl l (List.mem_cons_self _ _))
    have := ih (fun l hl' => hl l (List.mem_cons_of_mem _ hl'))
    simp only [List.flatten_cons, List.length_append, List.length_cons, List.length_nil]
    omega

/-- The lines the importer reads from a file made of whole lines are these lines. -/
theorem readLines_lines (lines : List (List Char)) (hl : ∀ l ∈ lines, IsLine l) :
    readLines 100 lines.flatten = lines := by
  unfold readLines
  exact readLinesAux_lines lines hl _ (by have := length_le_flatten lines hl; omega)

/-! ## The second pass on blocks -/

theorem run_append (openmp : Bool) (p : Progress) (l₁ l₂ : List (List Char)) :
    p.run openmp (l₁ ++ l₂) = (p.run openmp l₁).run openmp l₂ := by
  simp [Progress.run, List.foldl_append]

/-- The data lines of a block add their number to the current count and leave
the finished counts, the table and the counter alone. -/
theorem run_data (openmp : Bool) (ds : List (List Char)) :
    ∀ (p : Progress) (c : Int), (∀ d ∈ ds, isMarker d = false) → p.current = some c → 0 ≤ c →
      c + ds.length < 2 ^ 31 →
      (p.run openmp ds).done = p.done ∧ (p.run openmp ds).current = some (c + ds.length) ∧
      (p.run openmp ds).entries = p.entries ∧ (p.run openmp ds).counter = p.counter := by
  induction ds with
  | nil => intro p c _ hc _ _; simp [Progress.run, hc]
  | cons d ds ih =>
    intro p c hds hc h0 hlt
    have hd : isMarker d = false := hds d (List.mem_cons_self _ _)
    have hwrap : toShortLength (c + 1) = c + 1 := by
      apply toShortLength_of_in
      unfold InShortLength
      simp only [List.length_cons] at hlt
      push_cast at hlt
      constructor <;> omega
    have hstep : (p.step openmp d).done = p.done ∧ (p.step openmp d).current = some (c + 1) ∧
        (p.step openmp d).entries = p.entries ∧ (p.step openmp d).counter = p.counter := by
      simp [Progress.step, hd, hc, hwrap]
    obtain ⟨s1, s2, s3, s4⟩ := hstep
    obtain ⟨i1, i2, i3, i4⟩ := ih (p.step openmp d) (c + 1)
      (fun e he => hds e (List.mem_cons_of_mem _ he)) s2 (by omega)
      (by simp only [List.length_cons] at hlt; push_cast at hlt; omega)
    simp only [Progress.run, List.foldl_cons] at i1 i2 i3 i4 ⊢
    refine ⟨by rw [i1, s1], ?_, by rw [i3, s3], by rw [i4, s4]⟩
    rw [i2]; simp only [List.length_cons]; push_cast; congr 1; ring

/-- A block adds one roadmap, whose count is the number of its data lines, and
with `OPENMP` one table entry: the counter and the identifier scanned from the
marker line. -/
theorem run_block (openmp : Bool) (p : Progress) (b : Block) (hb : b.WellFormed)
    (hlen : (b.data.length : Int) < 2 ^ 31) :
    (p.run openmp b.lines).counts = p.counts ++ [(b.data.length : Int)] ∧
    (p.run openmp b.lines).entries =
      (if openmp then
        p.entries ++ [⟨p.counter, toIDnum (scanMarker b.marker p.vars).long_var⟩]
       else p.entries) ∧
    (p.run openmp b.lines).counter = (if openmp then toIDnum (p.counter + 1) else p.counter) := by
  obtain ⟨_, hm, hd⟩ := hb
  have hrun : p.run openmp b.lines = (p.step openmp b.marker).run openmp b.data := by
    simp [Progress.run, Block.lines]
  obtain ⟨_, h2, _, _⟩ := step_marker_length openmp p b.marker hm
  have hdone : (p.step openmp b.marker).done = p.counts := by
    cases openmp <;> simp [Progress.step, hm]
  obtain ⟨i1, i2, i3, i4⟩ := run_data openmp b.data (p.step openmp b.marker) 0
    (fun d hd' => (hd d hd').2) h2 (le_refl 0) (by simpa using hlen)
  rw [hrun]
  refine ⟨?_, ?_, ?_⟩
  · simp [Progress.counts, i1, i2, hdone]
  · rw [i3]; cases openmp <;> simp [Progress.step, hm]
  · rw [i4]; cases openmp <;> simp [Progress.step, hm]

/-- The counts of the roadmaps after the blocks of a file are the numbers of
data lines of the blocks. -/
theorem run_blocks_counts (openmp : Bool) (blocks : List Block) :
    ∀ p : Progress, (∀ b ∈ blocks, b.WellFormed ∧ (b.data.length : Int) < 2 ^ 31) →
      (p.run openmp (bodyLines blocks)).counts
        = p.counts ++ blocks.map (fun b => (b.data.length : Int)) := by
  induction blocks with
  | nil => intro p _; simp [bodyLines, Progress.run]
  | cons b bs ih =>
    intro p h
    obtain ⟨hb, hlen⟩ := h b (List.mem_cons_self _ _)
    have hcons : bodyLines (b :: bs) = b.lines ++ bodyLines bs := by simp [bodyLines]
    rw [hcons, run_append, ih _ (fun b' hb' => h b' (List.mem_cons_of_mem _ hb')),
      (run_block openmp p b hb hlen).1]
    simp

/-! ## Importing a file made of blocks -/

theorem bodyLines_cons (b : Block) (bs : List Block) :
    bodyLines (b :: bs) = b.marker :: (b.data ++ bodyLines bs) := by
  simp [bodyLines, Block.lines]

theorem markerCount_append (l₁ l₂ : List (List Char)) :
    markerCount (l₁ ++ l₂) = markerCount l₁ + markerCount l₂ := by
  simp [markerCount]

theorem dataCount_append (l₁ l₂ : List (List Char)) :
    dataCount (l₁ ++ l₂) = dataCount l₁ + dataCount l₂ := by
  simp [dataCount]

theorem counts_of_data (ds : List (List Char)) (h : ∀ d ∈ ds, isMarker d = false) :
    markerCount ds = 0 ∧ dataCount ds = ds.length := by
  induction ds with
  | nil => simp [markerCount, dataCount]
  | cons d ds ih =>
    have hd := h d (List.mem_cons_self _ _)
    obtain ⟨i1, i2⟩ := ih (fun e he => h e (List.mem_cons_of_mem _ he))
    rw [markerCount_cons, dataCount_cons, i1, i2]
    simp [hd]; omega

/-- The body of a file made of well-formed blocks: whole lines, as many marker
lines as blocks, as many data lines as the blocks hold, and no data line first. -/
theorem bodyLines_facts (blocks : List Block) (h : ∀ b ∈ blocks, b.WellFormed) :
    (∀ l ∈ bodyLines blocks, IsLine l) ∧
    markerCount (bodyLines blocks) = blocks.length ∧
    dataCount (bodyLines blocks) = (blocks.map (fun b => b.data.length)).sum ∧
    (∀ l ∈ (bodyLines blocks).head?, isMarker l = true) := by
  induction blocks with
  | nil => simp [bodyLines, markerCount, dataCount]
  | cons b bs ih =>
    obtain ⟨hl, hm, hd⟩ := h b (List.mem_cons_self _ _)
    obtain ⟨i1, i2, i3, _⟩ := ih (fun b' hb' => h b' (List.mem_cons_of_mem _ hb'))
    obtain ⟨c1, c2⟩ := counts_of_data b.data (fun d hd' => (hd d hd').2)
    rw [bodyLines_cons]
    refine ⟨?_, ?_, ?_, ?_⟩
    · intro l hmem
      rcases List.mem_cons.mp hmem with rfl | hmem
      · exact hl
      · rcases List.mem_append.mp hmem with hmem | hmem
        · exact (hd l hmem).1
        · exact i1 l hmem
    · rw [markerCount_cons, markerCount_append, c1, i2]; simp [hm]; omega
    · rw [dataCount_cons, dataCount_append, c2, i3]; simp [hm]
    · intro l hmem
      simp only [List.head?_cons, Option.mem_def, Option.some.injEq] at hmem
      rw [← hmem]; exact hm

/-- The importer on the text of a file made of a whole header line and
well-formed blocks, no more than the header's sequence count: it returns the
result described by `importResult`. -/
theorem importRoadMapArray_fileText (openmp : Bool) (garbage : Locals) (hdr : List Char)
    (blocks : List Block) (hhdr : IsLine hdr) (hblocks : ∀ b ∈ blocks, b.WellFormed)
    (hN : (blocks.length : Int) ≤ toIDnum (scanHeader hdr garbage).long_var)
    (hM : (((blocks.map (fun b => b.data.length)).sum : Nat) : Int) < 2 ^ 31) :
    importRoadMapArray openmp garbage (fileText hdr blocks)
      = .ok (importResult openmp garbage hdr (bodyLines blocks)) := by
  obtain ⟨f1, f2, f3, f4⟩ := bodyLines_facts blocks hblocks
  have hread := readLines_lines (bodyLines blocks) f1
  have := importRoadMapArray_ok openmp garbage (fileText hdr blocks) hdr (bodyLines blocks).flatten
    (fgets_line hdr _ hhdr) (by rw [hread]; exact fun l hl => f4 l hl)
    (by rw [hread, f2]; exact hN) (by rw [hread, f3]; exact hM)
  rw [hread] at this
  exact this

theorem length_le_sum_of_mem {blocks : List Block} {b : Block} (hb : b ∈ blocks) :
    b.data.length ≤ (blocks.map (fun b => b.data.length)).sum :=
  List.single_le_sum (fun _ _ => Nat.zero_le _) _ (List.mem_map_of_mem _ hb)

theorem toLong_of_in {x : Int} (h : InLong x) : toLong x = x := by
  unfold InLong at h
  unfold toLong clampSigned
  norm_num at h ⊢
  omega

/-- C2: round trip of the bulk importer.  For every list of blocks (`N` blocks,
block `i` made of one marker line and `c_i` data lines, `M` data lines in
all, `N` and `M` values of `IDnum`), the file made of the header with sequence
count `N` followed by the blocks is imported as a RoadMapArray with
`length = N`, `N` roadmaps, exactly `M` annotation entries, and
`array[i].annotationCount = c_i` for every `i`. -/
theorem bulk_import_round_trip (openmp : Bool) (garbage : Locals) (R W D : Int)
    (blocks : List Block) (hR : InLong R) (hW : InLong W) (hD : InLong D)
    (hblocks : ∀ b ∈ blocks, b.WellFormed)
    (hN : (blocks.length : Int) < 2 ^ 31)
    (hM : (((blocks.map (fun b => b.data.length)).sum : Nat) : Int) < 2 ^ 31) :
    ∃ r, importRoadMapArray openmp garbage
          (fileText (numberLine blocks.length R W D) blocks) = .ok r ∧
      r.length = blocks.length ∧
      r.array.length = blocks.length ∧
      r.annotations.length = (blocks.map (fun b => b.data.length)).sum ∧
      r.array.map RoadMap.annotationCount = blocks.map (fun b => (b.data.length : Int)) := by
  have hNin : InLong (blocks.length : Int) := by unfold InLong; constructor <;> omega
  have hvars := scanHeader_numberLine blocks.length R W D garbage
  have hseq : toIDnum (scanHeader (numberLine blocks.length R W D) garbage).long_var
      = blocks.length := by
    rw [hvars]; simp only [toLong_of_in hNin]
    exact toIDnum_of_in (by unfold InIDnum; constructor <;> omega)
  have hcounts := run_blocks_counts openmp blocks
    (Progress.init (scanHeader (numberLine blocks.length R W D) garbage))
    (fun b hb => ⟨hblocks b hb, by have := length_le_sum_of_mem hb; omega⟩)
  have hcl : ((Progress.init (scanHeader (numberLine blocks.length R W D) garbage)).run openmp
      (bodyLines blocks)).counts.length = blocks.length := by
    rw [hcounts]; simp [Progress.init, Progress.counts]
  refine ⟨_, importRoadMapArray_fileText openmp garbage _ blocks
    (isLine_numberLine _ _ _ _ hNin hR hW hD) hblocks (by rw [hseq]) hM, ?_, ?_, ?_, ?_⟩
  · simp only [importResult]; exact hseq
  · simp only [importResult, List.length_append, List.length_map, List.length_replicate, hcl, hseq]
    simp
  · simp only [importResult, run_records_length, (bodyLines_facts blocks hblocks).2.2.1]
    simp [Progress.init]
  · simp only [importResult, hseq, hcl, List.map_append, List.map_map]
    simp only [Int.toNat_ofNat, Nat.sub_self, List.replicate_zero, List.map_nil, List.append_nil,
      hcounts]
    have hid : (RoadMap.annotationCount ∘ RoadMap.mk) = id := rfl
    rw [hid, List.map_id]
    simp [Progress.init, Progress.counts]

/-- C2 on a file of two blocks with two and no data lines. -/
theorem bulk_import_round_trip_witness :
    (∀ b ∈ exampleBlocks, b.WellFormed) ∧
    ∃ r, importRoadMapArray false exampleGarbage
          (fileText (numberLine exampleBlocks.length 0 21 0) exampleBlocks) = .ok r ∧
      r.length = exampleBlocks.length ∧
      r.array.length = exampleBlocks.length ∧
      r.annotations.length = (exampleBlocks.map (fun b => b.data.length)).sum ∧
      r.array.map RoadMap.annotationCount = exampleBlocks.map (fun b => (b.data.length : Int)) :=
  ⟨by decide,
    bulk_import_round_trip false exampleGarbage 0 21 0 exampleBlocks (by decide) (by decide)
      (by decide) (by decide) (by decide) (by decide)⟩

/-! ## The runs of the roadmaps partition the annotation array -/

theorem annotationOfVars_rowLine (t : Row) (v : Locals) :
    annotationOfVars (scanData (rowLine t) v) = rowRecord t := by
  rw [rowLine, scanData_numberLine]
  rfl

theorem run_rows_records (openmp : Bool) (rows : List Row) :
    ∀ p : Progress, (p.run openmp (rows.map rowLine)).records = p.records ++ rows.map rowRecord := by
  induction rows with
  | nil => intro p; simp [Progress.run]
  | cons t ts ih =>
    intro p
    have hm : isMarker (rowLine t) = false := isMarker_numberLine _ _ _ _
    have hstep : (p.step openmp (rowLine t)).records = p.records ++ [rowRecord t] := by
      simp only [Progress.step, hm, Bool.false_eq_true, if_false, annotationOfVars_rowLine]
    have := ih (p.step openmp (rowLine t))
    simp only [Progress.run, List.map_cons, List.foldl_cons] at this ⊢
    rw [this, hstep]; simp

theorem toBlock_wellFormed (b : DataBlock) (h : b.WellFormed) : b.toBlock.WellFormed := by
  obtain ⟨h1, h2, h3⟩ := h
  refine ⟨h1, h2, ?_⟩
  intro d hd
  simp only [DataBlock.toBlock, List.mem_map] at hd
  obtain ⟨t, ht, rfl⟩ := hd
  obtain ⟨r1, r2, r3, r4⟩ := h3 t ht
  exact ⟨isLine_numberLine _ _ _ _ r1 r2 r3 r4, isMarker_numberLine _ _ _ _⟩

/-- The annotations written for a file of blocks of rows are the records of
the rows, block after block. -/
theorem run_dataBlocks_records (openmp : Bool) (blocks : List DataBlock) :
    ∀ p : Progress, (∀ b ∈ blocks, isMarker b.marker = true) →
      (p.run openmp (bodyLines (blocks.map DataBlock.toBlock))).records
        = p.records ++ (blocks.map (fun b => b.rows.map rowRecord)).flatten := by
  induction blocks with
  | nil => intro p _; simp [bodyLines, Progress.run]
  | cons b bs ih =>
    intro p h
    have hm := h b (List.mem_cons_self _ _)
    have hcons : bodyLines ((b :: bs).map DataBlock.toBlock)
        = [b.marker] ++ (b.rows.map rowLine ++ bodyLines (bs.map DataBlock.toBlock)) := by
      simp [bodyLines, Block.lines, DataBlock.toBlock]
    have hmark : (p.run openmp [b.marker]).records = p.records := by
      simpa [Progress.run] using (step_marker_length openmp p b.marker hm).2.2.1
    rw [hcons, run_append, run_append, ih _ (fun b' hb' => h b' (List.mem_cons_of_mem _ hb')),
      run_rows_records, hmark]
    simp

theorem getElem?_flatten_run {α : Type} (L : List (List α)) :
    ∀ (i : Nat) (l : List α), L[i]? = some l → ∀ j, j < l.length →
      L.flatten[((L.take i).map List.length).sum + j]? = l[j]? := by
  induction L with
  | nil => intro i l h; simp at h
  | cons x xs ih =>
    intro i l h j hj
    cases i with
    | zero =>
      simp only [List.getElem?_cons_zero, Option.some.injEq] at h
      subst h
      simp [List.getElem?_append_left hj]
    | succ i =>
      simp only [List.getElem?_cons_succ] at h
      have := ih i l h j hj
      simp only [List.take_succ_cons, List.map_cons, List.sum_cons, List.flatten_cons]
      rw [List.getElem?_append_right (by omega)]
      rw [← this]; congr 1; omega

theorem iterate_getNextAnnotation (j a : Nat) : getNextAnnotation^[j] a = a + j := by
  induction j generalizing a with
  | zero => rfl
  | succ j ih => rw [Function.iterate_succ_apply, ih]; unfold getNextAnnotation; omega

theorem range_map_getElem? {α : Type} (l : List α) :
    (List.range l.length).map (fun j => l[j]?) = l.map some := by
  apply List.ext_getElem?
  intro n
  by_cases h : n < l.length
  · simp [h, List.getElem?_eq_getElem]
  · simp [h, List.getElem?_eq_none (Nat.le_of_not_lt h)]; omega

theorem length_le_sum_rows {blocks : List DataBlock} {b : DataBlock} (hb : b ∈ blocks) :
    b.rows.length ≤ (blocks.map (fun b => b.rows.length)).sum :=
  List.single_le_sum (fun _ _ => Nat.zero_le _) _ (List.mem_map_of_mem _ hb)

theorem getAnnotationCount_natCast (n : Nat) (h : (n : Int) < 2 ^ 31) :
    (getAnnotationCount ⟨(n : Int)⟩).toNat = n := by
  have hin : InIDnum (n : Int) := by unfold InIDnum; constructor <;> omega
  simp only [getAnnotationCount, toIDnum_of_in hin, Int.toNat_ofNat]

/-- The arrays of the result on a file of blocks of rows. -/
theorem importResult_dataBlocks (openmp : Bool) (garbage : Locals) (hdr : List Char)
    (blocks : List DataBlock) (hblocks : ∀ b ∈ blocks, b.WellFormed)
    (hM : (((blocks.map (fun b => b.rows.length)).sum : Nat) : Int) < 2 ^ 31) :
    (importResult openmp garbage hdr (bodyLines (blocks.map DataBlock.toBlock))).array
      = blocks.map (fun b => RoadMap.mk (b.rows.length : Int)) ++
          List.replicate ((toIDnum (scanHeader hdr garbage).long_var).toNat - blocks.length) ⟨0⟩ ∧
    (importResult openmp garbage hdr (bodyLines (blocks.map DataBlock.toBlock))).annotations
      = (blocks.map (fun b => b.rows.map rowRecord)).flatten := by
  have hcounts := run_blocks_counts openmp (blocks.map DataBlock.toBlock)
    (Progress.init (scanHeader hdr garbage)) (by
      intro b hb
      simp only [List.mem_map] at hb
      obtain ⟨d, hd, rfl⟩ := hb
      refine ⟨toBlock_wellFormed d (hblocks d hd), ?_⟩
      have := length_le_sum_rows hd
      simp only [DataBlock.toBlock, List.length_map]
      omega)
  have hrecords := run_dataBlocks_records openmp blocks (Progress.init (scanHeader hdr garbage))
    (fun b hb => (hblocks b hb).2.1)
  constructor
  · simp only [importResult, hcounts]
    simp [Progress.init, Progress.counts, DataBlock.toBlock, Function.comp_def]
  · simp only [importResult, hrecords]
    simp [Progress.init]

theorem sum_getAnnotationCount (bs : List DataBlock)
    (h : ∀ b ∈ bs, ((b.rows.length : Nat) : Int) < 2 ^ 31) :
    (((bs.map (fun b => RoadMap.mk (b.rows.length : Int)))).map
      (fun rdmap => (getAnnotationCount rdmap).toNat)).sum
      = (bs.map (fun b => b.rows.length)).sum := by
  induction bs with
  | nil => rfl
  | cons b bs ih =>
    have hb := getAnnotationCount_natCast b.rows.length (h b (List.mem_cons_self _ _))
    have := ih (fun b' hb' => h b' (List.mem_cons_of_mem _ hb'))
    simp only [List.map_cons, List.sum_cons, hb, this]

theorem sum_getAnnotationCount_zero (k : Nat) :
    ((List.replicate k (⟨0⟩ : RoadMap)).map (fun rdmap => (getAnnotationCount rdmap).toNat)).sum
      = 0 := by
  have h0 : getAnnotationCount ⟨0⟩ = 0 := toIDnum_of_in (by decide)
  have : ∀ k : Nat, ((List.replicate k (⟨0⟩ : RoadMap)).map
      (fun rdmap => (getAnnotationCount rdmap).toNat)) = List.replicate k 0 := by
    intro k; rw [List.map_replicate, h0]; rfl
  rw [this]; simp

/-- C3: positional partition.  On a well-formed file of blocks of data lines
(no more blocks than the header's sequence count), for every roadmap index `i`
the run of roadmap `i` starts at the flat offset `c_0 + ... + c_(i-1)` and its
`c_i` annotations, reached by `getNextAnnotation` from the first one, are the
records of the data lines of block `i` in file order; the runs of all roadmaps
together end exactly at the end of the annotation array. -/
theorem annotation_runs_partition (openmp : Bool) (garbage : Locals) (hdr : List Char)
    (blocks : List DataBlock) (hhdr : IsLine hdr) (hblocks : ∀ b ∈ blocks, b.WellFormed)
    (hN : (blocks.length : Int) ≤ toIDnum (scanHeader hdr garbage).long_var)
    (hM : (((blocks.map (fun b => b.rows.length)).sum : Nat) : Int) < 2 ^ 31) :
    ∃ r, importRoadMapArray openmp garbage (fileText hdr (blocks.map DataBlock.toBlock)) = .ok r ∧
      runStart r r.array.length = r.annotations.length ∧
      ∀ i b, blocks[i]? = some b →
        runStart r i = ((blocks.take i).map (fun b => b.rows.length)).sum ∧
        annotationRun r i = b.rows.map (fun t => some (rowRecord t)) := by
  have hlt : ∀ b ∈ blocks, ((b.rows.length : Nat) : Int) < 2 ^ 31 := by
    intro b hb; have := length_le_sum_rows hb; omega
  have hsum : (List.map (fun b => b.data.length) (List.map DataBlock.toBlock blocks)).sum
      = (blocks.map (fun b => b.rows.length)).sum := by
    simp [DataBlock.toBlock, Function.comp_def]
  obtain ⟨harr, hann⟩ := importResult_dataBlocks openmp garbage hdr blocks hblocks hM
  refine ⟨_, importRoadMapArray_fileText openmp garbage hdr (blocks.map DataBlock.toBlock) hhdr
    (by
      intro b hb
      simp only [List.mem_map] at hb
      obtain ⟨d, hd, rfl⟩ := hb
      exact toBlock_wellFormed d (hblocks d hd))
    (by simpa using hN) (by rw [hsum]; exact hM), ?_, ?_⟩
  · unfold runStart
    rw [List.take_length, harr, hann, List.map_append, List.sum_append,
      sum_getAnnotationCount blocks hlt, sum_getAnnotationCount_zero]
    simp [List.length_flatten, Function.comp_def]
  · intro i b hib
    have hi : i < blocks.length := by
      by_contra hcon
      rw [List.getElem?_eq_none (Nat.le_of_not_lt hcon)] at hib
      cases hib
    have hstart : runStart (importResult openmp garbage hdr
        (bodyLines (blocks.map DataBlock.toBlock))) i
        = ((blocks.take i).map (fun b => b.rows.length)).sum := by
      unfold runStart
      rw [harr, List.take_append_of_le_length (by simp; omega), ← List.map_take,
        sum_getAnnotationCount (blocks.take i) (fun b hb => hlt b (List.mem_of_mem_take hb))]
    refine ⟨hstart, ?_⟩
    have hrd : getRoadMapInArray (importResult openmp garbage hdr
        (bodyLines (blocks.map DataBlock.toBlock))) i = some ⟨(b.rows.length : Int)⟩ := by
      unfold getRoadMapInArray
      rw [harr]
      simp only [Int.natCast_nonneg, if_true, Int.toNat_ofNat, List.get?_eq_getElem?]
      rw [List.getElem?_append_left (by simpa using hi), List.getElem?_map, hib]
      rfl
    unfold annotationRun
    rw [hrd]
    simp only [getAnnotationCount_natCast _ (hlt b (List.getElem?_mem hib)), hstart, hann,
      iterate_getNextAnnotation, List.get?_eq_getElem?]
    have hL : (blocks.map (fun b => b.rows.map rowRecord))[i]? = some (b.rows.map rowRecord) := by
      rw [List.getElem?_map, hib]; rfl
    have hoff : ((blocks.take i).map (fun b => b.rows.length)).sum
        = (((blocks.map (fun b => b.rows.map rowRecord)).take i).map List.length).sum := by
      rw [← List.map_take, List.map_map]
      refine congrArg List.sum (List.map_congr_left ?_)
      intro b _; simp
    have hR : b.rows.map (fun t => some (rowRecord t))
        = (List.range b.rows.length).map (fun j => (b.rows.map rowRecord)[j]?) := by
      have := range_map_getElem? (b.rows.map rowRecord)
      rw [List.length_map, List.map_map] at this
      exact this.symm
    rw [hR]
    apply List.map_congr_left
    intro j hj
    have hj' : j < (b.rows.map rowRecord).length := by simpa using hj
    rw [hoff, getElem?_flatten_run _ i _ hL j hj']

/-- C3 on a file of three blocks with two, no and one data line. -/
theorem annotation_runs_partition_witness :
    IsLine "3\t0\t21\t0\n".toList ∧ (∀ b ∈ exampleDataBlocks, b.WellFormed) ∧
    ∃ r, importRoadMapArray true exampleGarbage
        (fileText "3\t0\t21\t0\n".toList (exampleDataBlocks.map DataBlock.toBlock)) = .ok r ∧
      runStart r r.array.length = r.annotations.length ∧
      ∀ i b, exampleDataBlocks[i]? = some b →
        runStart r i = ((exampleDataBlocks.take i).map (fun b => b.rows.length)).sum ∧
        annotationRun r i = b.rows.map (fun t => some (rowRecord t)) :=
  ⟨by decide, by decide,
    annotation_runs_partition true exampleGarbage "3\t0\t21\t0\n".toList exampleDataBlocks
      (by decide) (by decide) (by decide) (by decide)⟩

/-! ## The sign rule -/

theorem toCoordinate_toShortLength (x : Int) : toCoordinate (toShortLength x) = toShortLength x := by
  unfold toCoordinate toShortLength wrapSigned
  norm_num
  omega

theorem toShortLength_sub (x y : Int) :
    toShortLength (toCoordinate (toCoordinate x - toCoordinate y))
      = toShortLength
          (toShortLength (toCoordinate x) - toShortLength (toCoordinate y)) := by
  unfold toCoordinate toShortLength wrapSigned
  norm_num
  omega

theorem toShortLength_intResult (x : Int) : toShortLength (intResult x) = toShortLength x := by
  unfold intResult toShortLength wrapSigned
  norm_num

theorem length_annotationOfVars (v : Locals) :
    (annotationOfVars v).length = toShortLength (signedExtent (annotationOfVars v)) := by
  by_cases h : toIDnum v.long_var > 0
  · simp only [signedExtent, annotationOfVars, getFinish, getStart, PositionPtr.coord, h, if_true,
      toCoordinate_toShortLength, toShortLength_sub]
  · simp only [signedExtent, annotationOfVars, getFinish, getStart, PositionPtr.coord, h, if_false,
      toCoordinate_toShortLength, toShortLength_sub]

theorem length_annotationOfVarsStreaming (v : Locals) :
    (annotationOfVarsStreaming v).length
      = toShortLength (signedExtent (annotationOfVarsStreaming v)) := by
  by_cases h : toIDnum v.long_var > 0
  · simp only [signedExtent, annotationOfVarsStreaming, getFinish, getStart, PositionPtr.coord, h,
      if_true, toCoordinate_toShortLength, toShortLength_intResult]
  · simp only [signedExtent, annotationOfVarsStreaming, getFinish, getStart, PositionPtr.coord, h,
      if_false, toCoordinate_toShortLength, toShortLength_intResult]

/-- C4 (as amended): for every data line, whatever the variables held before,
the annotation stored by `importRoadMapArray` and the one stored by
`importAnnotations` have `length` equal to `finish - start` when
`sequenceID > 0` and to `start - finish` when `sequenceID <= 0`, reduced to the
signed 32-bit range of the length field, where `start` and `finish` are the
values read back by `getStart` and `getFinish`. -/
theorem sign_rule (line : List Char) (v : Locals) :
    (annotationOfVars (scanData line v)).length
      = toShortLength (signedExtent (annotationOfVars (scanData line v))) ∧
    (annotationOfVarsStreaming (scanData line v)).length
      = toShortLength (signedExtent (annotationOfVarsStreaming (scanData line v))) :=
  ⟨length_annotationOfVars _, length_annotationOfVarsStreaming _⟩

/-- C4 as stated fails: the file holds the data line `1 0 -2147483648 2147483647`,
whose coordinates both fit their fields; the stored annotation has
`sequenceID = 1 > 0` and `length = -1`, while `getFinish - getStart` is `4294967295`. -/
theorem sign_rule_counterexample :
    (importRoadMapArray false exampleGarbage
        "1\t0\t21\t0\nROADMAP 1\n1\t0\t-2147483648\t2147483647\n".toList).map
      (fun r => r.annotations.map
        (fun a => (a.sequenceID, getStart a, getFinish a, a.length, getFinish a - getStart a)))
      = .ok [(1, -2147483648, 2147483647, -1, 4294967295)] := by
  decide

/-! ## Sign of the length -/

theorem toCoordinate_of_inShortLength {x : Int} (h : InShortLength x) : toCoordinate x = x := by
  unfold InShortLength at h
  unfold toCoordinate wrapSigned
  norm_num at h ⊢
  omega

/-- C5 (as amended): for every annotation produced by `importRoadMapArray` or
`importAnnotations` from a data line, `getAnnotationLength` returns a value
`>= 0` whenever the difference prescribed by the sign rule (`finish - start`
for `sequenceID > 0`, `start - finish` otherwise, on the coordinates read back)
is non-negative and fits the length field. -/
theorem length_nonneg (line : List Char) (v : Locals) (a : Annotation)
    (ha : a = annotationOfVars (scanData line v) ∨
      a = annotationOfVarsStreaming (scanData line v))
    (h : 0 ≤ signedExtent a ∧ signedExtent a < 2 ^ 31) :
    0 ≤ getAnnotationLength (some a) ∧ getAnnotationLength (some a) = signedExtent a := by
  have hin : InShortLength (signedExtent a) := by
    unfold InShortLength; constructor <;> omega
  have hlen : a.length = signedExtent a := by
    rcases ha with rfl | rfl
    · rw [length_annotationOfVars, toShortLength_of_in hin]
    · rw [length_annotationOfVarsStreaming, toShortLength_of_in hin]
  have hget : getAnnotationLength (some a) = signedExtent a := by
    simp only [getAnnotationLength, hlen, toCoordinate_of_inShortLength hin]
  exact ⟨by rw [hget]; exact h.1, hget⟩

/-- C5 as amended, on the data line `1 0 5 9`. -/
theorem length_nonneg_witness :
    (0 ≤ signedExtent (annotationOfVars (scanData "1\t0\t5\t9\n".toList exampleGarbage)) ∧
      signedExtent (annotationOfVars (scanData "1\t0\t5\t9\n".toList exampleGarbage)) < 2 ^ 31) ∧
    0 ≤ getAnnotationLength (some (annotationOfVars (scanData "1\t0\t5\t9\n".toList exampleGarbage))) ∧
    getAnnotationLength (some (annotationOfVars (scanData "1\t0\t5\t9\n".toList exampleGarbage)))
      = signedExtent (annotationOfVars (scanData "1\t0\t5\t9\n".toList exampleGarbage)) :=
  ⟨by decide,
    length_nonneg "1\t0\t5\t9\n".toList exampleGarbage _ (Or.inl rfl) (by decide)⟩

/-- C5 as stated fails: the file holds the data line `1 0 9 5` (a positive
sequence identifier with `finish < start`); `getAnnotationLength` of the stored
annotation is `-4`. -/
theorem length_nonneg_counterexample :
    (importRoadMapArray false exampleGarbage "1\t0\t21\t0\nROADMAP 1\n1\t0\t9\t5\n".toList).map
      (fun r => r.annotations.map (fun a => getAnnotationLength (some a)))
      = .ok [-4] := by
  decide

/-! ## The two importers build the same record -/

/-- C18: for every data line, whatever its four numbers, the annotation written
by `importRoadMapArray` (difference of the 64-bit parsed values, then narrowed to
the 32-bit length field) equals field for field the annotation written by
`importAnnotations` (difference of the already narrowed fields). -/
theorem bulk_record_eq_streaming_record (line : List Char) (v : Locals) :
    annotationOfVars (scanData line v) = annotationOfVarsStreaming (scanData line v) := by
  simp only [annotationOfVars, annotationOfVarsStreaming, toShortLength_sub,
    toShortLength_intResult]

/-! ## Frame conditions of the mutators -/

/-- C20: `setStartID` leaves finish, position, length and sequenceID unchanged,
`setFinishID` leaves start, position, length and sequenceID unchanged, and the
two setters commute. -/
theorem setters_frame (a : Annotation) (u v : Int) :
    ((setStartID a u).finish = a.finish ∧ (setStartID a u).position = a.position ∧
      (setStartID a u).length = a.length ∧ (setStartID a u).sequenceID = a.sequenceID) ∧
    ((setFinishID a v).start = a.start ∧ (setFinishID a v).position = a.position ∧
      (setFinishID a v).length = a.length ∧ (setFinishID a v).sequenceID = a.sequenceID) ∧
    setFinishID (setStartID a u) v = setStartID (setFinishID a v) u :=
  ⟨⟨rfl, rfl, rfl, rfl⟩, ⟨rfl, rfl, rfl, rfl⟩, rfl⟩

/-- C15: for every annotation whose start and finish coordinates are values of
their field below its maximum, `incrementAnnotationCoordinates` adds one to
`getStart` and to `getFinish` and leaves position, length and sequenceID (and so
the difference of the sign rule) unchanged. -/
theorem incrementAnnotationCoordinates_shift (a : Annotation)
    (hs : InShortLength a.start.coord ∧ a.start.coord < 2 ^ 31 - 1)
    (hf : InShortLength a.finish.coord ∧ a.finish.coord < 2 ^ 31 - 1) :
    getStart (incrementAnnotationCoordinates a) = getStart a + 1 ∧
    getFinish (incrementAnnotationCoordinates a) = getFinish a + 1 ∧
    (incrementAnnotationCoordinates a).position = a.position ∧
    (incrementAnnotationCoordinates a).length = a.length ∧
    (incrementAnnotationCoordinates a).sequenceID = a.sequenceID ∧
    signedExtent (incrementAnnotationCoordinates a) = signedExtent a := by
  obtain ⟨hs1, hs2⟩ := hs
  obtain ⟨hf1, hf2⟩ := hf
  have hs' : InShortLength (a.start.coord + 1) := by
    unfold InShortLength at hs1 ⊢; constructor <;> omega
  have hf' : InShortLength (a.finish.coord + 1) := by
    unfold InShortLength at hf1 ⊢; constructor <;> omega
  have e1 : getStart (incrementAnnotationCoordinates a) = getStart a + 1 := by
    simp only [getStart, incrementAnnotationCoordinates, PositionPtr.coord,
      toCoordinate_toShortLength]
    have c1 : toCoordinate a.start.slot = a.start.slot := toCoordinate_of_inShortLength hs1
    rw [c1]; exact toShortLength_of_in hs'
  have e2 : getFinish (incrementAnnotationCoordinates a) = getFinish a + 1 := by
    simp only [getFinish, incrementAnnotationCoordinates, PositionPtr.coord,
      toCoordinate_toShortLength]
    have c1 : toCoordinate a.finish.slot = a.finish.slot := toCoordinate_of_inShortLength hf1
    rw [c1]; exact toShortLength_of_in hf'
  refine ⟨e1, e2, rfl, rfl, rfl, ?_⟩
  have hid : (incrementAnnotationCoordinates a).sequenceID = a.sequenceID := rfl
  simp only [signedExtent, e1, e2, hid]
  split <;> ring

/-- C15 on an annotation with coordinates 1000 and 2000. -/
theorem incrementAnnotationCoordinates_shift_witness :
    getStart (incrementAnnotationCoordinates ⟨5, ⟨1000⟩, ⟨2000⟩, 1000, 3⟩) = 1001 ∧
    getFinish (incrementAnnotationCoordinates ⟨5, ⟨1000⟩, ⟨2000⟩, 1000, 3⟩) = 2001 :=
  have h := incrementAnnotationCoordinates_shift ⟨5, ⟨1000⟩, ⟨2000⟩, 1000, 3⟩
    (by decide) (by decide)
  ⟨h.1.trans (by decide), h.2.1.trans (by decide)⟩

/-! ## Looking up the sequence identifier -/

/-- C14: `getAnnotSequenceID` returns `indexOrder[annot.sequenceID]` when the
RoadMapArray is non-null and has an index-order array (the index being inside
the array), and returns `annot.sequenceID` verbatim when the RoadMapArray is
null or has no index-order array. -/
theorem getAnnotSequenceID_spec (annot : Annotation) (r : RoadMapArray) :
    getAnnotSequenceID annot none = some annot.sequenceID ∧
    (r.indexOrder = none → getAnnotSequenceID annot (some r) = some annot.sequenceID) ∧
    (∀ order, r.indexOrder = some order → 0 ≤ annot.sequenceID →
      getAnnotSequenceID annot (some r) = order[annot.sequenceID.toNat]?) := by
  refine ⟨rfl, ?_, ?_⟩
  · intro h; simp [getAnnotSequenceID, h]
  · intro order h h0; simp [getAnnotSequenceID, h, h0]

/-- C14 on an index-order array of four entries and on a RoadMapArray without one. -/
theorem getAnnotSequenceID_spec_witness :
    getAnnotSequenceID ⟨0, ⟨0⟩, ⟨0⟩, 0, 2⟩ (some ⟨4, 0, 21, 0, [], [], some [4, 2, 1, 3]⟩) = some 1 ∧
    getAnnotSequenceID ⟨0, ⟨0⟩, ⟨0⟩, 0, 2⟩ (some ⟨4, 0, 21, 0, [], [], none⟩) = some 2 :=
  have h := getAnnotSequenceID_spec ⟨0, ⟨0⟩, ⟨0⟩, 0, 2⟩ ⟨4, 0, 21, 0, [], [], some [4, 2, 1, 3]⟩
  have h' := getAnnotSequenceID_spec ⟨0, ⟨0⟩, ⟨0⟩, 0, 2⟩ ⟨4, 0, 21, 0, [], [], none⟩
  ⟨(h.2.2 [4, 2, 1, 3] rfl (by decide)).trans (by decide), h'.2.1 rfl⟩

/-! ## The comparator of the conversion table -/

/-- C16 at the failing input: the identifiers `2147483647` and `-1` are both
values of `IDnum`, the first is the greater, and `compareIndexConversions`
returns `-1` for the pair in either order; the table of the
file whose marker lines carry them in this order is left as it is by the sort,
so the index-order array is `[1, 2]` while ascending identifiers would give `[2, 1]`. -/
theorem compareIndexConversions_overflow :
    compareIndexConversions ⟨1, 2147483647⟩ ⟨2, -1⟩ = -1 ∧
    compareIndexConversions ⟨2, -1⟩ ⟨1, 2147483647⟩ = -1 ∧
    qsort compareIndexConversions [⟨1, 2147483647⟩, ⟨2, -1⟩] = [⟨1, 2147483647⟩, ⟨2, -1⟩] ∧
    (importRoadMapArray true exampleGarbage
        "2\t0\t21\t0\nROADMAP 2147483647\nROADMAP -1\n".toList).map
      (fun r => r.indexOrder) = .ok (some [1, 2]) := by
  decide

/-! ## Lines with a malformed field -/

/-- C17 (as amended): for every non-marker line of the body read while a
roadmap and an annotation slot are available, `importRoadMapArray` stores one
annotation for the line, built from the variables as `sscanf` leaves them: the
fields scanned before the first one that fails take their parsed value, and the
variables of the failed field and of those after it keep the value they had
before the line (the last value scanned by an earlier line, or their
indeterminate initial content). -/
theorem malformed_field_keeps_previous (openmp : Bool) (st : FillState) (line : List Char)
    (hline : isMarker line = false) (hann : st.nextAnnotation < st.annotations.length)
    (hrd : 0 ≤ st.rdmap ∧ st.rdmap < st.array.length) :
    (∃ st', fillLine openmp st line = .ok st' ∧
      st'.nextAnnotation = st.nextAnnotation + 1 ∧
      st'.annotations =
        st.annotations.set st.nextAnnotation (annotationOfVars (scanData line st.vars))) ∧
    (scanInteger false line = none → scanData line st.vars = st.vars) ∧
    (∀ a r1, scanInteger false line = some (a, r1) →
      scanInteger false (skipSpace r1) = none →
      scanData line st.vars = { st.vars with long_var := toLong a }) ∧
    (∀ a r1 b r2, scanInteger false line = some (a, r1) →
      scanInteger false (skipSpace r1) = some (b, r2) →
      scanInteger false (skipSpace r2) = none →
      scanData line st.vars = { st.vars with long_var := toLong a, longlong_var := toLong b }) ∧
    (∀ a r1 b r2 c r3, scanInteger false line = some (a, r1) →
      scanInteger false (skipSpace r1) = some (b, r2) →
      scanInteger false (skipSpace r2) = some (c, r3) →
      scanInteger false (skipSpace r3) = none →
      scanData line st.vars =
        { st.vars with long_var := toLong a, longlong_var := toLong b,
                       longlong_var2 := toLong c }) := by
  refine ⟨?_, ?_, ?_, ?_, ?_⟩
  · simp [fillLine, hline, hann, hrd]
  · intro h; simp [scanData, h]
  · intro a r1 h1 h2; simp [scanData, h1, h2]
  · intro a r1 b r2 h1 h2 h3; simp [scanData, h1, h2, h3]
  · intro a r1 b r2 c r3 h1 h2 h3 h4; simp [scanData, h1, h2, h3, h4]

/-- C17 as amended, on the line `x` read after the line `5 6 7 9` has been scanned. -/
theorem malformed_field_keeps_previous_witness :
    (∃ st', fillLine false
        ⟨⟨5, 0, 6, 7, 9, 0, 21, none⟩, 0, [⟨1⟩], 1, [⟨6, ⟨7⟩, ⟨9⟩, 2, 5⟩, Annotation.zero],
          [⟨0, 0⟩], 0, 1⟩ "x\n".toList = .ok st' ∧
      st'.nextAnnotation = 2 ∧
      st'.annotations = [⟨6, ⟨7⟩, ⟨9⟩, 2, 5⟩, ⟨6, ⟨7⟩, ⟨9⟩, 2, 5⟩]) :=
  (malformed_field_keeps_previous false
    ⟨⟨5, 0, 6, 7, 9, 0, 21, none⟩, 0, [⟨1⟩], 1, [⟨6, ⟨7⟩, ⟨9⟩, 2, 5⟩, Annotation.zero],
      [⟨0, 0⟩], 0, 1⟩ "x\n".toList (by decide) (by decide) (by decide)).1

/-- C17 as stated fails: in the file the data line `5 6 7 9` is followed by the
line `x`, no field of which parses; the annotation stored for it repeats the
values of the line before instead of holding zeros. -/
theorem malformed_field_counterexample :
    (importRoadMapArray false exampleGarbage
        "1\t0\t21\t0\nROADMAP 1\n5\t6\t7\t9\nx\n".toList).map (fun r => r.annotations)
      = .ok [⟨6, ⟨7⟩, ⟨9⟩, 2, 5⟩, ⟨6, ⟨7⟩, ⟨9⟩, 2, 5⟩] := by
  decide

/-! ## Bounds of the second pass -/

theorem toInt_of_in {x : Int} (h : InIDnum x) : toInt x = x := by
  unfold InIDnum at h
  unfold toInt wrapSigned clampSigned
  norm_num at h ⊢
  split_ifs <;> omega

theorem toBoolean_toShort_of_in {x : Int} (h : -128 ≤ x ∧ x ≤ 127) :
    toBoolean (toShort x) = x := by
  unfold toBoolean toShort wrapSigned clampSigned
  norm_num
  split_ifs <;> omega

theorem fillLine_error (openmp : Bool) (st : FillState) (line : List Char) (e : Fault)
    (h : fillLine openmp st line = .error e) :
    (∃ i, e = .roadmapOutOfBounds i) ∨ (∃ i, e = .annotationOutOfBounds i) ∨
      (∃ i, e = .tableOutOfBounds i) := by
  unfold fillLine at h
  split_ifs at h
  all_goals (cases h; try simp)

theorem foldlM_fillLine_error (openmp : Bool) (lines : List (List Char)) :
    ∀ (st : FillState) (e : Fault), lines.foldlM (fillLine openmp) st = .error e →
      (∃ i, e = .roadmapOutOfBounds i) ∨ (∃ i, e = .annotationOutOfBounds i) ∨
        (∃ i, e = .tableOutOfBounds i) := by
  induction lines with
  | nil => intro st e h; cases h
  | cons l ls ih =>
    intro st e h
    rw [List.foldlM_cons] at h
    cases hstep : fillLine openmp st l with
    | error e' =>
      rw [hstep] at h
      have : e' = e := by injection h
      subst this
      exact fillLine_error openmp st l _ hstep
    | ok st' =>
      rw [hstep] at h
      exact ih st' e h

/-- C9 (as amended): for every file whose first line is four tab-separated
decimal integers `N`, `R`, `W`, `D` within the range of their fields with
`N >= 0`, whatever the lines that follow: a RoadMapArray returned by
`importRoadMapArray` has `length = N`, `referenceCount = R`, `WORDLENGTH = W` and
`double_strand` false exactly when `D = 0`; the importer does return one when
the body does not start with a data line, has at most `N` marker lines and fewer
than `2^31` data lines; and when it does not return, it has written outside an
array it allocated or could not allocate the annotation array. -/
theorem header_fields (openmp : Bool) (garbage : Locals) (N R W D : Int) (rest : List Char)
    (hN : 0 ≤ N ∧ N < 2 ^ 31) (hR : InIDnum R) (hW : InIDnum W) (hD : -128 ≤ D ∧ D ≤ 127) :
    (∀ r, importRoadMapArray openmp garbage (numberLine N R W D ++ rest) = .ok r →
      r.length = N ∧ r.referenceCount = R ∧ r.WORDLENGTH = W ∧ (r.double_strand = 0 ↔ D = 0)) ∧
    ((∀ l ∈ (readLines 100 rest).head?, isMarker l = true) →
      (markerCount (readLines 100 rest) : Int) ≤ N →
      (dataCount (readLines 100 rest) : Int) < 2 ^ 31 →
      ∃ r, importRoadMapArray openmp garbage (numberLine N R W D ++ rest) = .ok r) ∧
    (∀ e, importRoadMapArray openmp garbage (numberLine N R W D ++ rest) = .error e →
      e = .allocation ∨ (∃ i, e = .roadmapOutOfBounds i) ∨ (∃ i, e = .annotationOutOfBounds i) ∨
        (∃ i, e = .tableOutOfBounds i)) := by
  have hNi : InIDnum N := by unfold InIDnum; constructor <;> omega
  have inLong : ∀ x : Int, InIDnum x → InLong x := by
    intro x hx; unfold InIDnum at hx; unfold InLong; constructor <;> omega
  have hDl : InLong D := by unfold InLong; constructor <;> omega
  have hline := isLine_numberLine N R W D (inLong N hNi) (inLong R hR) (inLong W hW) hDl
  have hf := fgets_line _ rest hline
  have hvars := scanHeader_numberLine N R W D garbage
  have hseq : toIDnum (scanHeader (numberLine N R W D) garbage).long_var = N := by
    rw [hvars]; simp only [toLong_of_in (inLong N hNi)]; exact toIDnum_of_in hNi
  have href : toIDnum (scanHeader (numberLine N R W D) garbage).long_var2 = R := by
    rw [hvars]; simp only [toLong_of_in (inLong R hR)]; exact toIDnum_of_in hR
  have hword : (scanHeader (numberLine N R W D) garbage).WORDLENGTH = W := by
    rw [hvars]; exact toInt_of_in hW
  have hbool : toBoolean (scanHeader (numberLine N R W D) garbage).short_var = D := by
    rw [hvars]; exact toBoolean_toShort_of_in hD
  have hnn : ¬ N < 0 := by omega
  refine ⟨?_, ?_, ?_⟩
  · intro r hr
    simp only [importRoadMapArray, hf, hseq, hnn, if_false] at hr
    by_cases hc : countAnnotations (readLines 100 rest) < 0
    · simp only [hc, if_true] at hr; cases hr
    · simp only [hc, if_false] at hr
      split at hr
      · cases hr
      · injection hr with hr
        subst hr
        exact ⟨rfl, href, hword, by show toBoolean _ = 0 ↔ D = 0; rw [hbool]⟩
  · intro hfirst hmarkers hdata
    exact ⟨_, importRoadMapArray_ok openmp garbage _ (numberLine N R W D) rest hf
      (fun l hl => hfirst l hl) (by rw [hseq]; exact hmarkers) hdata⟩
  · intro e he
    simp only [importRoadMapArray, hf, hseq, hnn, if_false] at he
    by_cases hc : countAnnotations (readLines 100 rest) < 0
    · simp only [hc, if_true] at he
      injection he with he; exact Or.inl he.symm
    · simp only [hc, if_false] at he
      split at he
      · rename_i e' hfold
        injection he with he
        subst he
        exact Or.inr (foldlM_fillLine_error openmp _ _ _ hfold)
      · cases he

/-- C9 as amended, on the literal scenario: the header `4 0 21 0` followed by
four marker/data blocks gives length 4, word length 21 and `double_strand` false. -/
theorem header_fields_witness :
    ∃ r, importRoadMapArray false exampleGarbage
        (numberLine 4 0 21 0 ++
          "ROADMAP 1\n1\t0\t5\t9\nROADMAP 2\nROADMAP 3\n-1\t3\t9\t5\nROADMAP 4\n2\t1\t0\t4\n".toList)
        = .ok r ∧
      r.length = 4 ∧ r.referenceCount = 0 ∧ r.WORDLENGTH = 21 ∧ (r.double_strand = 0 ↔ (0 : Int) = 0) :=
  have h := header_fields false exampleGarbage 4 0 21 0
    "ROADMAP 1\n1\t0\t5\t9\nROADMAP 2\nROADMAP 3\n-1\t3\t9\t5\nROADMAP 4\n2\t1\t0\t4\n".toList
    (by decide) (by decide) (by decide) (by decide)
  have ⟨r, hr⟩ := h.2.1 (by decide) (by decide) (by decide)
  ⟨r, hr, h.1 r hr⟩

/-- C9 as stated fails: in the header `-1 0 21 0` every number is within the
range of its field, and `importRoadMapArray` stops in `callocOrExit`, called
with the sequence count `-1`, without returning a RoadMapArray. -/
theorem header_fields_counterexample :
    importRoadMapArray false exampleGarbage "-1\t0\t21\t0\nROADMAP 1\n1\t0\t5\t9\n".toList
      = .error .allocation := by
  decide

/-! ## The conversion table and the index-order array -/

/-- A marker line `ROADMAP <id>` assigns the identifier to `long_var`. -/
theorem scanMarker_markerLine (id : Int) (v : Locals) :
    scanMarker (markerLine id) v = { v with long_var := toLong id } := by
  have hn : isSpace '\n' = true := by decide
  have h1 : scanSkipWord (markerLine id) = some (' ' :: (showInt id ++ ['\n'])) := by
    simp [markerLine, scanSkipWord, skipSpace, skipWord, isSpace]
  have h2 : skipSpace (' ' :: (showInt id ++ ['\n'])) = showInt id ++ ['\n'] :=
    skipSpace_showInt ' ' id ['\n'] (by decide)
  simp only [scanMarker, h1, h2, scanInteger_showInt false id '\n' [] hn]

theorem markerLine_facts (id : Int) (h : InLong id) :
    IsLine (markerLine id) ∧ isMarker (markerLine id) = true := by
  have hl := showInt_length id h
  have e : markerLine id = ("ROADMAP ".toList ++ showInt id) ++ ['\n'] := by
    simp [markerLine]
  refine ⟨⟨?_, ?_, ?_⟩, by simp [markerLine, isMarker]⟩
  · rw [e]; exact List.getLast?_concat _
  · rw [e, List.dropLast_concat]
    simp only [List.mem_append, not_or]
    exact ⟨by decide, showInt_no_newline id⟩
  · rw [e]; simp only [List.length_append, List.length_singleton]
    have : "ROADMAP ".toList.length = 8 := by decide
    omega

theorem idBlock_wellFormed (b : IdBlock) (h : b.WellFormed) : b.toBlock.WellFormed :=
  ⟨(markerLine_facts b.id h.1).1, (markerLine_facts b.id h.1).2, h.2⟩

/-- With `OPENMP`, the blocks of a file add to the table the entries of their
identifiers, numbered from the value of the counter. -/
theorem run_idBlocks_entries (blocks : List IdBlock) :
    ∀ p : Progress, (∀ b ∈ blocks, b.WellFormed ∧ (b.data.length : Int) < 2 ^ 31) →
      InIDnum p.counter → p.counter + blocks.length ≤ 2 ^ 31 →
      (p.run true (bodyLines (blocks.map IdBlock.toBlock))).entries
        = p.entries ++ conversionEntries p.counter (blocks.map (fun b => toLong b.id)) := by
  induction blocks with
  | nil => intro p _ _ _; simp [bodyLines, Progress.run, conversionEntries]
  | cons b bs ih =>
    intro p h hc hlen
    obtain ⟨hb, hbl⟩ := h b (List.mem_cons_self _ _)
    have hrest := fun b' hb' => h b' (List.mem_cons_of_mem _ hb')
    have hcons : bodyLines ((b :: bs).map IdBlock.toBlock)
        = b.toBlock.lines ++ bodyLines (bs.map IdBlock.toBlock) := by simp [bodyLines]
    obtain ⟨_, he, hcn⟩ := run_block true p b.toBlock (idBlock_wellFormed b hb) hbl
    simp only [if_true] at he hcn
    rw [hcons, run_append]
    cases bs with
    | nil =>
      simp only [List.map_nil, bodyLines, List.flatMap_nil, Progress.run, List.foldl_nil]
      simp only [Progress.run] at he
      rw [he]
      simp [conversionEntries, IdBlock.toBlock, scanMarker_markerLine]
    | cons b2 bs2 =>
      have hlt : p.counter + 1 < 2 ^ 31 := by
        simp only [List.length_cons] at hlen; push_cast at hlen; omega
      have hin : InIDnum (p.counter + 1) := by
        unfold InIDnum at hc ⊢; constructor <;> omega
      have hcn' : (p.run true b.toBlock.lines).counter = p.counter + 1 := by
        rw [hcn]; exact toIDnum_of_in hin
      rw [ih (p.run true b.toBlock.lines) hrest (by rw [hcn']; exact hin)
        (by rw [hcn']; simp only [List.length_cons] at hlen ⊢; push_cast at hlen ⊢; omega),
        he, hcn']
      simp [conversionEntries, IdBlock.toBlock, scanMarker_markerLine]

theorem conversionEntries_length (ids : List Int) :
    ∀ c, (conversionEntries c ids).length = ids.length := by
  induction ids with
  | nil => intro c; rfl
  | cons i is ih => intro c; simp [conversionEntries, ih]

theorem length_le_sum_idBlocks {blocks : List IdBlock} {b : IdBlock} (hb : b ∈ blocks) :
    b.data.length ≤ (blocks.map (fun b => b.data.length)).sum :=
  List.single_le_sum (fun _ _ => Nat.zero_le _) _ (List.mem_map_of_mem _ hb)

/-- With `OPENMP`, on a file of as many blocks as the header announces, the
index-order array lists the `initialIndex` of the sorted table of the
identifiers, numbered from 1. -/
theorem importRoadMapArray_idBlocks (garbage : Locals) (R W D : Int) (blocks : List IdBlock)
    (hR : InLong R) (hW : InLong W) (hD : InLong D)
    (hblocks : ∀ b ∈ blocks, b.WellFormed)
    (hN : (blocks.length : Int) < 2 ^ 31)
    (hM : (((blocks.map (fun b => b.data.length)).sum : Nat) : Int) < 2 ^ 31) :
    ∃ r, importRoadMapArray true garbage
        (fileText (numberLine blocks.length R W D) (blocks.map IdBlock.toBlock)) = .ok r ∧
      r.indexOrder = some ((qsort compareIndexConversions
        (conversionEntries 1 (blocks.map (fun b => toLong b.id)))).map
          IndexConversion.initialIndex) := by
  have hNin : InLong (blocks.length : Int) := by unfold InLong; constructor <;> omega
  have hvars := scanHeader_numberLine blocks.length R W D garbage
  have hseq : toIDnum (scanHeader (numberLine blocks.length R W D) garbage).long_var
      = blocks.length := by
    rw [hvars]; simp only [toLong_of_in hNin]
    exact toIDnum_of_in (by unfold InIDnum; constructor <;> omega)
  have hsum : (List.map (fun b => b.data.length) (List.map IdBlock.toBlock blocks)).sum
      = (blocks.map (fun b => b.data.length)).sum := by
    simp [IdBlock.toBlock, Function.comp_def]
  have hentries := run_idBlocks_entries blocks
    (Progress.init (scanHeader (numberLine blocks.length R W D) garbage))
    (fun b hb => ⟨hblocks b hb, by have := length_le_sum_idBlocks hb; omega⟩)
    (by simp only [Progress.init]; decide) (by simp only [Progress.init]; omega)
  refine ⟨_, importRoadMapArray_fileText true garbage _ (blocks.map IdBlock.toBlock)
    (isLine_numberLine _ _ _ _ hNin hR hW hD)
    (by
      intro b hb
      simp only [List.mem_map] at hb
      obtain ⟨d, hd, rfl⟩ := hb
      exact idBlock_wellFormed d (hblocks d hd))
    (by rw [hseq]; simp) (by rw [hsum]; exact hM), ?_⟩
  simp only [importResult, if_true, hentries, hseq]
  simp [Progress.init, conversionEntries_length]

/-- C6 (as amended): with `OPENMP`, importing a file whose four marker lines
carry the original identifiers 5, 2, 8, 1 in file order, whatever the data lines
of the blocks, produces the index-order array `[4, 2, 1, 3]`: the reading
positions, counted from 1, in ascending order of original identifier. -/
theorem reorder_scenario (garbage : Locals) (R W D : Int) (d0 d1 d2 d3 : List (List Char))
    (hR : InLong R) (hW : InLong W) (hD : InLong D)
    (hdata : ∀ d ∈ d0 ++ (d1 ++ (d2 ++ d3)), IsLine d ∧ isMarker d = false)
    (hM : ((d0.length + (d1.length + (d2.length + d3.length)) : Nat) : Int) < 2 ^ 31) :
    ∃ r, importRoadMapArray true garbage
        (fileText (numberLine 4 R W D)
          ([⟨5, d0⟩, ⟨2, d1⟩, ⟨8, d2⟩, ⟨1, d3⟩].map IdBlock.toBlock)) = .ok r ∧
      r.indexOrder = some [4, 2, 1, 3] := by
  have hwf : ∀ b ∈ ([⟨5, d0⟩, ⟨2, d1⟩, ⟨8, d2⟩, ⟨1, d3⟩] : List IdBlock), b.WellFormed := by
    intro b hb
    simp only [List.mem_cons, List.mem_singleton, List.not_mem_nil, or_false] at hb
    rcases hb with rfl | rfl | rfl | rfl
    · exact ⟨(by decide : InLong 5), fun d hd => hdata d (by simp [hd])⟩
    · exact ⟨(by decide : InLong 2), fun d hd => hdata d (by simp [hd])⟩
    · exact ⟨(by decide : InLong 8), fun d hd => hdata d (by simp [hd])⟩
    · exact ⟨(by decide : InLong 1), fun d hd => hdata d (by simp [hd])⟩
  obtain ⟨r, hr, ho⟩ := importRoadMapArray_idBlocks garbage R W D
    [⟨5, d0⟩, ⟨2, d1⟩, ⟨8, d2⟩, ⟨1, d3⟩] hR hW hD hwf (by simp)
    (by simpa using hM)
  refine ⟨r, hr, ?_⟩
  rw [ho]
  simp only [List.map_cons, List.map_nil]
  decide

/-- C6 as amended, on blocks with one, no, two and no data lines. -/
theorem reorder_scenario_witness :
    ∃ r, importRoadMapArray true exampleGarbage
        (fileText (numberLine 4 0 21 0)
          ([⟨5, ["1\t0\t5\t9\n".toList]⟩, ⟨2, []⟩,
            ⟨8, ["-1\t3\t9\t5\n".toList, "2\t1\t0\t4\n".toList]⟩, ⟨1, []⟩].map
              IdBlock.toBlock)) = .ok r ∧
      r.indexOrder = some [4, 2, 1, 3] :=
  reorder_scenario exampleGarbage 0 21 0 ["1\t0\t5\t9\n".toList] []
    ["-1\t3\t9\t5\n".toList, "2\t1\t0\t4\n".toList] [] (by decide) (by decide) (by decide)
    (by decide) (by decide)

/-- C6 as stated fails: on the file whose four marker lines carry 5, 2, 8, 1 the
index-order array is `[4, 2, 1, 3]`, not `[3, 1, 0, 2]`. -/
theorem reorder_scenario_counterexample :
    (importRoadMapArray true exampleGarbage
        "4\t0\t21\t0\nROADMAP 5\nROADMAP 2\nROADMAP 8\nROADMAP 1\n".toList).map
        (fun r => r.indexOrder) = .ok (some [4, 2, 1, 3]) ∧
    (importRoadMapArray true exampleGarbage
        "4\t0\t21\t0\nROADMAP 5\nROADMAP 2\nROADMAP 8\nROADMAP 1\n".toList).map
        (fun r => r.indexOrder) ≠ .ok (some [3, 1, 0, 2]) := by
  decide

/-- C7 (as amended): with `OPENMP`, for every well-formed file with
`sequenceCount = n` and exactly `n` marker lines carrying identifiers, the
index-order array has exactly `n` entries and is a permutation of `1 .. n`. -/
theorem index_order_permutation (garbage : Locals) (R W D : Int) (blocks : List IdBlock)
    (hR : InLong R) (hW : InLong W) (hD : InLong D)
    (hblocks : ∀ b ∈ blocks, b.WellFormed)
    (hN : (blocks.length : Int) < 2 ^ 31)
    (hM : (((blocks.map (fun b => b.data.length)).sum : Nat) : Int) < 2 ^ 31) :
    ∃ r order, importRoadMapArray true garbage
        (fileText (numberLine blocks.length R W D) (blocks.map IdBlock.toBlock)) = .ok r ∧
      r.indexOrder = some order ∧ order.length = blocks.length ∧
      order.Perm ((List.range' 1 blocks.length).map (fun k : Nat => (k : Int))) := by
  obtain ⟨r, hr, ho⟩ := importRoadMapArray_idBlocks garbage R W D blocks hR hW hD hblocks hN hM
  have hinit : ∀ (ids : List Int) (c : Nat),
      (conversionEntries (c : Int) ids).map IndexConversion.initialIndex
        = (List.range' c ids.length).map (fun k : Nat => (k : Int)) := by
    intro ids
    induction ids with
    | nil => intro c; rfl
    | cons i is ih =>
      intro c
      have := ih (c + 1)
      simp only [conversionEntries, List.map_cons, List.length_cons, List.range'_succ]
      push_cast at this
      rw [this]
  have hperm : (qsort compareIndexConversions
      (conversionEntries 1 (blocks.map (fun b => toLong b.id)))).Perm
      (conversionEntries 1 (blocks.map (fun b => toLong b.id))) :=
    List.perm_insertionSort _ _
  have h1 := hinit (blocks.map (fun b => toLong b.id)) 1
  simp only [Nat.cast_one, List.length_map] at h1
  refine ⟨r, _, hr, ho, ?_, ?_⟩
  · rw [List.length_map, hperm.length_eq, conversionEntries_length, List.length_map]
  · rw [← h1]; exact hperm.map _

/-- C7 as amended, on the four blocks with identifiers 5, 2, 8, 1. -/
theorem index_order_permutation_witness :
    ∃ r order, importRoadMapArray true exampleGarbage
        (fileText (numberLine exampleIdBlocks.length 0 21 0)
          (exampleIdBlocks.map IdBlock.toBlock)) = .ok r ∧
      r.indexOrder = some order ∧ order.length = exampleIdBlocks.length ∧
      order.Perm ((List.range' 1 exampleIdBlocks.length).map (fun k : Nat => (k : Int))) :=
  index_order_permutation exampleGarbage 0 21 0 exampleIdBlocks (by decide) (by decide)
    (by decide) (by decide) (by decide) (by decide)

/-- C7 as stated fails: on the file whose two marker lines carry 7 and 3 the
index-order array is `[2, 1]`, which is not a permutation of `0 .. 1`. -/
theorem index_order_permutation_counterexample :
    (importRoadMapArray true exampleGarbage "2\t0\t21\t0\nROADMAP 7\nROADMAP 3\n".toList).map
        (fun r => r.indexOrder) = .ok (some [2, 1]) ∧
    ¬ List.Perm ([2, 1] : List Int) [0, 1] := by
  decide

/-! ## Looking up through the index-order array -/

theorem compareIndexConversions_le_iff (a b : IndexConversion)
    (ha : 0 ≤ a.actualIndex ∧ a.actualIndex < 2 ^ 31)
    (hb : 0 ≤ b.actualIndex ∧ b.actualIndex < 2 ^ 31) :
    compareIndexConversions a b ≤ 0 ↔ byActualIndex a b := by
  have hd : toIDnum (a.actualIndex - b.actualIndex) = a.actualIndex - b.actualIndex :=
    toIDnum_of_in (by unfold InIDnum; constructor <;> omega)
  unfold compareIndexConversions byActualIndex
  simp only [hd]
  split_ifs <;> omega

theorem orderedInsert_congr {α : Type} (r r' : α → α → Prop) [DecidableRel r] [DecidableRel r']
    (a : α) (l : List α) (h : ∀ b ∈ l, (r a b ↔ r' a b)) :
    l.orderedInsert r a = l.orderedInsert r' a := by
  induction l with
  | nil => rfl
  | cons b l ih =>
    have hb := h b (List.mem_cons_self _ _)
    have := ih (fun c hc => h c (List.mem_cons_of_mem _ hc))
    by_cases hr : r a b
    · simp [List.orderedInsert, hr, hb.mp hr]
    · have hr' : ¬ r' a b := fun h' => hr (hb.mpr h')
      simp [List.orderedInsert, hr, hr', this]

theorem insertionSort_congr {α : Type} (r r' : α → α → Prop) [DecidableRel r] [DecidableRel r']
    (l : List α) (h : ∀ a ∈ l, ∀ b ∈ l, (r a b ↔ r' a b)) :
    l.insertionSort r = l.insertionSort r' := by
  induction l with
  | nil => rfl
  | cons a l ih =>
    have := ih (fun x hx y hy => h x (List.mem_cons_of_mem _ hx) y (List.mem_cons_of_mem _ hy))
    simp only [List.insertionSort, this]
    apply orderedInsert_congr
    intro b hb
    have hb' : b ∈ l := (List.perm_insertionSort r' l).mem_iff.mp hb
    exact h a (List.mem_cons_self _ _) b (List.mem_cons_of_mem _ hb')

theorem countP_lt_of_sorted (K : List Int) (h : K.Sorted (· < ·)) :
    ∀ i (hi : i < K.length), K.countP (fun x => decide (x < K[i])) = i := by
  induction K with
  | nil => intro i hi; simp at hi
  | cons a K ih =>
    intro i hi
    obtain ⟨ha, hK⟩ := List.sorted_cons.mp h
    cases i with
    | zero =>
      have hz : K.countP (fun x => decide (x < a)) = 0 := by
        rw [List.countP_eq_zero]
        intro b hb
        have := ha b hb
        simp only [decide_eq_true_eq]; omega
      simp [List.countP_cons, hz]
    | succ j =>
      have hj : j < K.length := by simpa using hi
      have hlt : a < K[j] := ha _ (List.getElem_mem _)
      have := ih hK j hj
      simp [List.countP_cons, this, hlt]

theorem conversionEntries_getElem? (ids : List Int) :
    ∀ (c : Int) (k : Nat) (i : Int), ids[k]? = some i →
      (conversionEntries c ids)[k]? = some ⟨c + k, toIDnum i⟩ := by
  induction ids with
  | nil => intro c k i h; simp at h
  | cons x xs ih =>
    intro c k i h
    cases k with
    | zero =>
      simp only [List.getElem?_cons_zero, Option.some.injEq] at h
      subst h; simp [conversionEntries]
    | succ k =>
      simp only [List.getElem?_cons_succ] at h
      have := ih (c + 1) k i h
      simp only [conversionEntries, List.getElem?_cons_succ, this]
      congr 2; push_cast; ring

theorem conversionEntries_actualIndex (ids : List Int) :
    ∀ c, (conversionEntries c ids).map IndexConversion.actualIndex = ids.map toIDnum := by
  induction ids with
  | nil => intro c; rfl
  | cons x xs ih => intro c; simp [conversionEntries, ih]

/-- C8 (as amended): with `OPENMP`, for every well-formed file whose `n` marker
lines carry distinct original identifiers `id_0 .. id_(n-1)` (non-negative
values of `IDnum`) in file order and for every reading position `k < n`,
looking up through the index-order array, as `getAnnotSequenceID` does, the
number of identifiers smaller than `id_k` returns `k + 1`: the array maps the
rank of an original identifier to the reading position, counted from 1, of the
sequence that carries it. -/
theorem reorder_lookup (garbage : Locals) (R W D : Int) (blocks : List IdBlock)
    (hR : InLong R) (hW : InLong W) (hD : InLong D)
    (hblocks : ∀ b ∈ blocks, b.WellFormed)
    (hids : ∀ b ∈ blocks, 0 ≤ b.id ∧ b.id < 2 ^ 31)
    (hnodup : (blocks.map IdBlock.id).Nodup)
    (hN : (blocks.length : Int) < 2 ^ 31)
    (hM : (((blocks.map (fun b => b.data.length)).sum : Nat) : Int) < 2 ^ 31) :
    ∃ r, importRoadMapArray true garbage
        (fileText (numberLine blocks.length R W D) (blocks.map IdBlock.toBlock)) = .ok r ∧
      ∀ (k : Nat) (b : IdBlock), blocks[k]? = some b → ∀ annot : Annotation,
        annot.sequenceID = ((blocks.map IdBlock.id).countP (fun i => decide (i < b.id)) : Nat) →
        getAnnotSequenceID annot (some r) = some ((k : Int) + 1) := by
  obtain ⟨r, hr, ho⟩ := importRoadMapArray_idBlocks garbage R W D blocks hR hW hD hblocks hN hM
  refine ⟨r, hr, ?_⟩
  intro k b hkb annot hannot
  have hbmem : b ∈ blocks := List.getElem?_mem hkb
  have hconv : ∀ b ∈ blocks, toIDnum (toLong b.id) = b.id := by
    intro b hb
    obtain ⟨h0, h1⟩ := hids b hb
    rw [toLong_of_in (by unfold InLong; constructor <;> omega)]
    exact toIDnum_of_in (by unfold InIDnum; constructor <;> omega)
  have hkeys : (conversionEntries 1 (blocks.map (fun b => toLong b.id))).map
      IndexConversion.actualIndex = blocks.map IdBlock.id := by
    rw [conversionEntries_actualIndex, List.map_map]
    exact List.map_congr_left (fun b hb => hconv b hb)
  have hrange : ∀ e ∈ conversionEntries 1 (blocks.map (fun b => toLong b.id)),
      0 ≤ e.actualIndex ∧ e.actualIndex < 2 ^ 31 := by
    intro e he
    have : e.actualIndex ∈ blocks.map IdBlock.id := by
      rw [← hkeys]; exact List.mem_map_of_mem _ he
    obtain ⟨b', hb', hbe⟩ := List.mem_map.mp this
    rw [← hbe]; exact hids b' hb'
  have hsort : qsort compareIndexConversions
      (conversionEntries 1 (blocks.map (fun b => toLong b.id)))
      = (conversionEntries 1 (blocks.map (fun b => toLong b.id))).insertionSort byActualIndex :=
    insertionSort_congr _ _ _
      (fun x hx y hy => compareIndexConversions_le_iff x y (hrange x hx) (hrange y hy))
  have hperm := List.perm_insertionSort byActualIndex
    (conversionEntries 1 (blocks.map (fun b => toLong b.id)))
  have hsorted := List.sorted_insertionSort byActualIndex
    (conversionEntries 1 (blocks.map (fun b => toLong b.id)))
  generalize hS : (conversionEntries 1 (blocks.map (fun b => toLong b.id))).insertionSort
    byActualIndex = S at hsort hperm hsorted
  have hKperm : (S.map IndexConversion.actualIndex).Perm (blocks.map IdBlock.id) := by
    rw [← hkeys]; exact hperm.map _
  have hKsorted : (S.map IndexConversion.actualIndex).Sorted (· < ·) := by
    have hle : (S.map IndexConversion.actualIndex).Sorted (· ≤ ·) := by
      unfold List.Sorted at hsorted ⊢
      rw [List.pairwise_map]; exact hsorted
    exact hle.lt_of_le (hKperm.nodup_iff.mpr hnodup)
  have hentry : (conversionEntries 1 (blocks.map (fun b => toLong b.id)))[k]?
      = some ⟨1 + k, b.id⟩ := by
    have := conversionEntries_getElem? (blocks.map (fun b => toLong b.id)) 1 k (toLong b.id)
      (by rw [List.getElem?_map, hkb]; rfl)
    rw [this, hconv b hbmem]
  have hmemS : (⟨1 + k, b.id⟩ : IndexConversion) ∈ S :=
    hperm.mem_iff.mpr (List.getElem?_mem hentry)
  obtain ⟨i, hi, hSi⟩ := List.getElem_of_mem hmemS
  have hiK : i < (S.map IndexConversion.actualIndex).length := by simpa using hi
  have hcount := countP_lt_of_sorted _ hKsorted i hiK
  have hKi : (S.map IndexConversion.actualIndex)[i] = b.id := by
    rw [List.getElem_map, hSi]
  rw [hKi, hKperm.countP_eq] at hcount
  have hseq : annot.sequenceID = (i : Int) := by rw [hannot, hcount]
  have hget : getAnnotSequenceID annot (some r)
      = (S.map IndexConversion.initialIndex)[annot.sequenceID.toNat]? := by
    rw [← hsort]
    simp only [getAnnotSequenceID, ho, hseq, Int.natCast_nonneg, if_true, List.get?_eq_getElem?]
  rw [hget, hseq, Int.toNat_ofNat, List.getElem?_map, List.getElem?_eq_getElem hi, hSi]
  simp only [Option.map_some']
  congr 1; ring

/-- C8 as amended, on the four blocks with identifiers 5, 2, 8, 1: the sequence
at reading position 0 carries the identifier 5, two identifiers are smaller,
and looking up 2 returns 1. -/
theorem reorder_lookup_witness :
    ∃ r, importRoadMapArray true exampleGarbage
        (fileText (numberLine exampleIdBlocks.length 0 21 0)
          (exampleIdBlocks.map IdBlock.toBlock)) = .ok r ∧
      getAnnotSequenceID ⟨0, ⟨0⟩, ⟨0⟩, 0, 2⟩ (some r) = some 1 :=
  have ⟨r, hr, h⟩ := reorder_lookup exampleGarbage 0 21 0 exampleIdBlocks (by decide) (by decide)
    (by decide) (by decide) (by decide) (by decide) (by decide) (by decide)
  ⟨r, hr, h 0 ⟨5, ["1\t0\t5\t9\n".toList]⟩ rfl ⟨0, ⟨0⟩, ⟨0⟩, 0, 2⟩ (by decide)⟩

/-- C8 as stated fails: on the file whose marker lines carry 5, 2, 8, 1, looking
up the reading position 0 through the index-order array returns 4, not the
original identifier 5 of the sequence stored there. -/
theorem reorder_lookup_counterexample :
    (importRoadMapArray true exampleGarbage
        "4\t0\t21\t0\nROADMAP 5\n1\t0\t5\t9\nROADMAP 2\nROADMAP 8\nROADMAP 1\n".toList).map
        (fun r => getAnnotSequenceID ⟨0, ⟨0⟩, ⟨0⟩, 0, 0⟩ (some r)) = .ok (some 4) := by
  decide

/-! ## The streaming importer on concrete inputs -/

/-- C11 at the failing input: the caller's counter holds 5 and the next line of
the file is a marker line; `importAnnotations` leaves the counter at 5 and
returns an array of 5 (zeroed) annotations, not a zero-length one. -/
theorem importAnnotations_empty_block :
    (importAnnotations 5000 false Annotation.zero exampleGarbage [] "ROADMAP 2\n".toList 5).map
      (fun r => (r.annotations.length, r.annotationCount, r.file)) = .ok (5, 5, []) ∧
    (importAnnotations 5000 false Annotation.zero exampleGarbage [] [] 5).map
      (fun r => (r.annotations.length, r.annotationCount, r.file)) = .ok (5, 5, []) ∧
    (importAnnotations 5000 false Annotation.zero exampleGarbage [] "ROADMAP 2\n".toList 0).map
      (fun r => (r.annotations.length, r.annotationCount, r.file)) = .ok (0, 0, []) := by
  decide

/-- C12 at the failing inputs: with the caller's counter at 3, a block of one
data line leaves the counter at 4 and returns an array of 4 annotations instead
of 1; with the counter at 8, the test `*annotationCount == arraySize` never
holds and the ninth data line of a block is written outside the array of 8
annotations; and with the counter at 0, when the array is moved on growing, the
ninth data line is written through the stale `nextAnnotation`. -/
theorem importAnnotations_count_and_size :
    (importAnnotations 5000 false Annotation.zero exampleGarbage []
        "1\t0\t5\t9\nROADMAP 2\n".toList 3).map
      (fun r => (r.annotations, r.annotationCount))
      = .ok ([⟨0, ⟨5⟩, ⟨9⟩, 4, 1⟩, Annotation.zero, Annotation.zero, Annotation.zero], 4) ∧
    importAnnotations 5000 false Annotation.zero exampleGarbage [] exampleNineLines 8
      = .error (.annotationOutOfBounds 8) ∧
    importAnnotations 5000 true Annotation.zero exampleGarbage [] exampleNineLines 0
      = .error (.staleWrite 8) ∧
    (importAnnotations 5000 false Annotation.zero exampleGarbage [] exampleNineLines 0).map
      (fun r => (r.annotations.length, r.annotationCount)) = .ok (9, 9) := by
  decide

/-- C13 at the failing input: the file is positioned after the marker line
`ROADMAP 7`; `importAnnotations` scans its own buffer `line` before reading
anything into it, so `*readIndex` comes from what the buffer happens to hold
(here a line `ROADMAP 3`, giving 2; or nothing, giving the old `long_var` less 1),
not from the marker line before the file position, which would give 6. -/
theorem importAnnotations_readIndex :
    (importAnnotations 5000 false Annotation.zero exampleGarbage "ROADMAP 3\n".toList
        "1\t0\t5\t9\nROADMAP 8\n".toList 0).map (fun r => r.readIndex) = .ok 2 ∧
    (importAnnotations 5000 false Annotation.zero ⟨0, 0, 0, 0, 0, 0, 0, none⟩ []
        "1\t0\t5\t9\nROADMAP 8\n".toList 0).map (fun r => r.readIndex) = .ok (-1) := by
  decide

end Velvet
